import Mathlib

/- Verification development for the corpus bundling/indexing/retrieval engine.

The definitions below are a shallow embedding of the Python sources
`corpus/pack.py` (glob selection, content transform, index rendering,
bundle serialization, gzip/base64 envelope, stats) and
`corpus/mcp/sources.py` (DirSource, BundleSource offset index and
retrieval, token-scored search).

Modelling conventions:
* byte streams are `List Nat` (one entry per byte);
* text is `String` / `List Char`; the permissive utf-8 decode of the
  sources is embedded exactly on valid sequences (the `errors="ignore"`
  recovery path is approximated by skipping one byte, which no theorem
  below relies on);
* the regexes built by the code are embedded by their denotations
  (documented at each definition);
* the gzip stage is an external library call; it is a parameter of the
  packing function, plus a concrete model of the fixed gzip member
  header (whose MTIME field records the wall clock) for the claims that
  depend on it.
-/

set_option maxRecDepth 100000

deriving instance DecidableEq for Except

namespace Corpus

/-! ### Bytes and text -/

/-- Bytes of an ASCII-ish string, one `Nat` per character code. -/
def strBytes (s : String) : List Nat := s.data.map Char.toNat

/-- UTF-8 encoding of one unicode scalar value (standard 1-4 byte forms). -/
def utf8EncodeChar (n : Nat) : List Nat :=
  if n < 0x80 then [n]
  else if n < 0x800 then [0xC0 + n / 0x40, 0x80 + n % 0x40]
  else if n < 0x10000 then [0xE0 + n / 0x1000, 0x80 + n / 0x40 % 0x40, 0x80 + n % 0x40]
  else [0xF0 + n / 0x40000, 0x80 + n / 0x1000 % 0x40, 0x80 + n / 0x40 % 0x40, 0x80 + n % 0x40]

/-- Model of `str.encode("utf-8")`. -/
def utf8Encode : List Char → List Nat
  | [] => []
  | c :: s => utf8EncodeChar c.toNat ++ utf8Encode s

/-- Is `b` a UTF-8 continuation byte? -/
def utf8Cont (b : Nat) : Bool := 0x80 ≤ b && b < 0xC0

/-- Model of `bytes.decode("utf-8", errors="ignore")`: exact on valid sequences
(including the overlong/surrogate rejections); on an invalid sequence it
skips one byte and resumes, an approximation of the CPython recovery that
no theorem below exercises. -/
def utf8DecodeAux : Nat → List Nat → List Char
  | 0, _ => []
  | _ + 1, [] => []
  | fuel + 1, b :: rest =>
    if b < 0x80 then Char.ofNat b :: utf8DecodeAux fuel rest
    else if b < 0xC2 then utf8DecodeAux fuel rest
    else if b < 0xE0 then
      match rest with
      | b2 :: r2 =>
        if utf8Cont b2 then Char.ofNat ((b - 0xC0) * 0x40 + (b2 - 0x80)) :: utf8DecodeAux fuel r2
        else utf8DecodeAux fuel (b2 :: r2)
      | [] => []
    else if b < 0xF0 then
      match rest with
      | b2 :: b3 :: r3 =>
        if (utf8Cont b2 && utf8Cont b3)
            && (b ≠ 0xE0 || 0xA0 ≤ b2) && (b ≠ 0xED || b2 < 0xA0) then
          Char.ofNat ((b - 0xE0) * 0x1000 + (b2 - 0x80) * 0x40 + (b3 - 0x80))
            :: utf8DecodeAux fuel r3
        else utf8DecodeAux fuel (b2 :: b3 :: r3)
      | [b2] => utf8DecodeAux fuel [b2]
      | [] => []
    else if b < 0xF5 then
      match rest with
      | b2 :: b3 :: b4 :: r4 =>
        if (utf8Cont b2 && utf8Cont b3 && utf8Cont b4)
            && (b ≠ 0xF0 || 0x90 ≤ b2) && (b ≠ 0xF4 || b2 < 0x90) then
          Char.ofNat ((b - 0xF0) * 0x40000 + (b2 - 0x80) * 0x1000 + (b3 - 0x80) * 0x40 + (b4 - 0x80))
            :: utf8DecodeAux fuel r4
        else utf8DecodeAux fuel (b2 :: b3 :: b4 :: r4)
      | [b2, b3] => utf8DecodeAux fuel [b2, b3]
      | [b2] => utf8DecodeAux fuel [b2]
      | [] => []
    else utf8DecodeAux fuel rest

/-- The decoder consumes at least one byte per step, so `l.length` fuel
is always sufficient; with it `utf8DecodeAux` agrees with the decoder of
the sources. -/
def utf8Decode (l : List Nat) : List Char := utf8DecodeAux l.length l

/-- Split a byte stream into lines, each keeping its terminating `0x0A`
(the final line may lack one): iteration over a binary file handle. -/
def splitLinesAux (acc : List Nat) : List Nat → List (List Nat)
  | [] => if acc.isEmpty then [] else [acc.reverse]
  | b :: rest =>
    if b = 10 then (acc.reverse ++ [10]) :: splitLinesAux [] rest
    else splitLinesAux (b :: acc) rest

def splitLines (l : List Nat) : List (List Nat) := splitLinesAux [] l

/-- Split text into lines keeping terminators: `io.StringIO` line iteration. -/
def splitLinesStrAux (acc : List Char) : List Char → List (List Char)
  | [] => if acc.isEmpty then [] else [acc.reverse]
  | c :: rest =>
    if c = '\n' then (acc.reverse ++ ['\n']) :: splitLinesStrAux [] rest
    else splitLinesStrAux (c :: acc) rest

def splitLinesStr (l : List Char) : List (List Char) := splitLinesStrAux [] l

/-! ### POSIX path helpers (`os.path` on a POSIX system) -/

/-- Python `str.split(sep)` for a one-character separator (keeps empty parts). -/
def splitSepAux (sep : Char) (acc : List Char) : List Char → List (List Char)
  | [] => [acc.reverse]
  | c :: rest =>
    if c = sep then acc.reverse :: splitSepAux sep [] rest
    else splitSepAux sep (c :: acc) rest

def splitSep (sep : Char) (l : List Char) : List (List Char) := splitSepAux sep [] l

/-- One step of the component loop of `posixpath.normpath`. -/
def normpathStep (initialSlashes : Nat) (acc : List (List Char)) (comp : List Char) :
    List (List Char) :=
  if comp = [] ∨ comp = ['.'] then acc
  else if comp ≠ ['.', '.'] ∨ (initialSlashes = 0 ∧ acc = [])
      ∨ (acc ≠ [] ∧ acc.getLast? = some ['.', '.']) then acc ++ [comp]
  else if acc ≠ [] then acc.dropLast
  else acc

/-- Model of `posixpath.normpath`. -/
def normpathChars (p : List Char) : List Char :=
  if p = [] then ['.']
  else
    let initialSlashes : Nat :=
      if p.take 2 = ['/', '/'] ∧ p.take 3 ≠ ['/', '/', '/'] then 2
      else if p.take 1 = ['/'] then 1 else 0
    let comps := splitSep '/' p
    let newComps := comps.foldl (normpathStep initialSlashes) []
    let res := List.replicate initialSlashes '/' ++ List.intercalate ['/'] newComps
    if res = [] then ['.'] else res

def normpath (s : String) : String := ⟨normpathChars s.data⟩

/-- Model of `posixpath.basename`: everything after the last `/`. -/
def basenameChars (p : List Char) : List Char := ((splitSep '/' p).getLast?).getD []

def basename (s : String) : String := ⟨basenameChars s.data⟩

/-- Model of `posixpath.splitext`: splits at the last dot of the final path
component, unless every character before it in that component is a dot. -/
def splitextChars (p : List Char) : List Char × List Char :=
  let base := basenameChars p
  let rev := base.reverse
  let i := rev.findIdx (· = '.')
  if i < rev.length then
    let stem := base.take (base.length - 1 - i)
    if stem.any (fun c => c ≠ '.') then
      (p.take (p.length - (i + 1)), p.drop (p.length - (i + 1)))
    else (p, [])
  else (p, [])

/-- Model of `os.path.join(root, path)` for one argument on POSIX. -/
def osJoin (root path : String) : String :=
  if path.data.take 1 = ['/'] then path
  else if root.data.getLast? = some '/' then root ++ path
  else root ++ "/" ++ path

/-! ### Glob matching (`_match_glob` in pack.py)

`_match_glob` escapes the glob and rewrites it into a regex by the global
replacements `\*\*/ → (?:.*/)?`, then `\*\* → .*`, `\* → [^/]*`,
`\? → [^/]`, then matches with `re.match` against `^...$`.  The pattern
compiler below performs the same three rewrites directly on the glob text
(the replacements on the escaped text hit exactly the original `**/`,
`**`, `*`, `?` occurrences, leftmost first), and the matcher implements
the denotation of the produced regex: `.` never matches a newline, `[^/]`
any character but `/`, and `$` also matches just before one final
newline. -/

inductive PatElem where
  | lit (c : Char)
  | anyDirs
  | anyStr
  | anySeg
  | anyChar
deriving DecidableEq

/-- Replace every `**/` (leftmost, non-overlapping). -/
def globPass1 : List Char → List PatElem
  | '*' :: '*' :: '/' :: rest => .anyDirs :: globPass1 rest
  | c :: rest => .lit c :: globPass1 rest
  | [] => []

/-- Replace every remaining `**`. -/
def globPass2 : List PatElem → List PatElem
  | .lit '*' :: .lit '*' :: rest => .anyStr :: globPass2 rest
  | e :: rest => e :: globPass2 rest
  | [] => []

/-- Replace every remaining `*`. -/
def globPass3 : List PatElem → List PatElem
  | .lit '*' :: rest => .anySeg :: globPass3 rest
  | e :: rest => e :: globPass3 rest
  | [] => []

/-- Replace every `?`. -/
def globPass4 : List PatElem → List PatElem
  | .lit '?' :: rest => .anyChar :: globPass4 rest
  | e :: rest => e :: globPass4 rest
  | [] => []

def compileGlob (p : List Char) : List PatElem :=
  globPass4 (globPass3 (globPass2 (globPass1 p)))

/-- Model of `X*`-style search: try the continuation `k` on `s` and on every suffix
reachable by consuming characters for which `ok` holds. -/
def tryStar (ok : Char → Bool) (k : List Char → Bool) : List Char → Bool
  | [] => k []
  | d :: s => k (d :: s) || (ok d && tryStar ok k s)

/-- The `.*/` part of `(?:.*/)?`: a newline-free run ending in `/`,
then the continuation `k`. -/
def tryDirs (k : List Char → Bool) : List Char → Bool
  | [] => false
  | d :: s => (d = '/' && k s) || (decide (d ≠ '\n') && tryDirs k s)

/-- Does the compiled pattern match the entire string?  `anyDirs` is
`(?:.*/)?`: nothing, or any newline-free run ending in `/`; `anyStr` is
`.*` (no newlines); `anySeg` is `[^/]*`; `anyChar` is `[^/]`. -/
def elemsMatch : List PatElem → List Char → Bool
  | [], s => s.isEmpty
  | .lit c :: ps, s =>
    match s with
    | d :: t => c = d && elemsMatch ps t
    | [] => false
  | .anyChar :: ps, s =>
    match s with
    | d :: t => decide (d ≠ '/') && elemsMatch ps t
    | [] => false
  | .anySeg :: ps, s => tryStar (fun d => decide (d ≠ '/')) (elemsMatch ps) s
  | .anyStr :: ps, s => tryStar (fun d => decide (d ≠ '\n')) (elemsMatch ps) s
  | .anyDirs :: ps, s => elemsMatch ps s || tryDirs (elemsMatch ps) s

/-- Model of `re.compile("^" + regex + "$").match(path)`: anchored at the start,
and `$` accepts the end or the position before one final newline. -/
def regexFullMatch (ps : List PatElem) (s : List Char) : Bool :=
  elemsMatch ps s ||
    (match s.getLast? with
     | some c => c = '\n' && elemsMatch ps s.dropLast
     | none => false)

/-- Model of `_match_glob(pattern, path)`. -/
def matchGlob (pattern path : String) : Bool :=
  let pat := normpathChars pattern.data
  let pth := normpathChars path.data
  let pext := (splitextChars pat).2
  let thext := (splitextChars pth).2
  let pat' := if pext ≠ [] ∧ thext ≠ [] then (splitextChars pat).1 ++ pext.map Char.toLower else pat
  let pth' := if pext ≠ [] ∧ thext ≠ [] then (splitextChars pth).1 ++ thext.map Char.toLower else pth
  regexFullMatch (compileGlob pat') pth'

def containsChar (l : List Char) (c : Char) : Bool := l.any (· = c)

/-- Model of `_should_exclude(rel_path, exclude)`. -/
def shouldExclude (relPath : String) (excludes : List String) : Bool :=
  excludes.any fun pat =>
    let target :=
      if !containsChar pat.data '/' && !containsChar pat.data '\\' then basename relPath
      else relPath
    matchGlob pat target

/-- Model of `_should_include(rel_path, include)`. -/
def shouldInclude (relPath : String) (includes : List String) : Bool :=
  if includes.isEmpty then true
  else includes.any fun pat =>
    let target :=
      if !containsChar pat.data '/' && !containsChar pat.data '\\' then basename relPath
      else relPath
    matchGlob pat target

/-! ### Content transform (`_compress_text` in pack.py) -/

/-- Model of `re.sub(r"//.*", "", text)`: at each `//`, drop up to (excluding) the
next newline, then continue scanning there.  Every step consumes at least
one character, so `length` fuel suffices. -/
def stripLineCommentsAux : Nat → List Char → List Char
  | 0, _ => []
  | _ + 1, [] => []
  | fuel + 1, '/' :: '/' :: rest => stripLineCommentsAux fuel (rest.dropWhile (· ≠ '\n'))
  | fuel + 1, c :: rest => c :: stripLineCommentsAux fuel rest

def stripLineComments (l : List Char) : List Char := stripLineCommentsAux l.length l

/-- Position right after the first `*/`, if any (the non-greedy
`.*?\*/` stops at the first closer). -/
def findBlockClose : List Char → Option (List Char)
  | [] => none
  | a :: rest =>
    match rest with
    | [] => none
    | b :: rest' =>
      if a = '*' ∧ b = '/' then some rest'
      else findBlockClose (b :: rest')

/-- Model of `re.sub(r"(?s)/\*.*?\*/", "", text)`: at each `/*`, drop through the
first following `*/`; a `/*` with no closing `*/` is not a match and the
remainder is kept verbatim.  `length` fuel suffices. -/
def stripBlockCommentsAux : Nat → List Char → List Char
  | 0, _ => []
  | _ + 1, [] => []
  | fuel + 1, '/' :: '*' :: rest =>
    (match findBlockClose rest with
     | some rest' => stripBlockCommentsAux fuel rest'
     | none => '/' :: '*' :: rest)
  | fuel + 1, c :: rest => c :: stripBlockCommentsAux fuel rest

def stripBlockComments (l : List Char) : List Char := stripBlockCommentsAux l.length l

/-- Python whitespace (`str.split()` / `str.strip()` with no argument). -/
def isPySpace (c : Char) : Bool :=
  c = ' ' || c = '\t' || c = '\n' || c = '\r' || c = '\x0b' || c = '\x0c'

/-- Model of `str.split()`: maximal runs of non-whitespace. -/
def pyWordsAux (cur : List Char) : List Char → List (List Char)
  | [] => if cur.isEmpty then [] else [cur.reverse]
  | c :: rest =>
    if isPySpace c then
      if cur.isEmpty then pyWordsAux [] rest else cur.reverse :: pyWordsAux [] rest
    else pyWordsAux (c :: cur) rest

def pyWords (l : List Char) : List (List Char) := pyWordsAux [] l

/-- Python `str.strip()`. -/
def pyStrip (l : List Char) : List Char :=
  ((l.dropWhile isPySpace).reverse.dropWhile isPySpace).reverse

/-- Python `str.replace(pat, repl)` (global, leftmost, non-overlapping;
all uses below have a non-empty `pat`, so `length` fuel suffices). -/
def replaceAllAux (pat repl : List Char) : Nat → List Char → List Char
  | 0, _ => []
  | _ + 1, [] => []
  | fuel + 1, c :: rest =>
    if pat ≠ [] ∧ pat.isPrefixOf (c :: rest) then
      repl ++ replaceAllAux pat repl fuel ((c :: rest).drop pat.length)
    else c :: replaceAllAux pat repl fuel rest

def replaceAll (pat repl : List Char) (l : List Char) : List Char :=
  replaceAllAux pat repl l.length l

/-- The punctuation list of `_compress_text` (each a single character). -/
def compressSymbols : List Char :=
  ['.', ',', ':', ';', ')', '(', '\x7b', '\x7d', '[', ']', '+', '-', '*', '/',
   '=', '<', '>', '&', '|', '!', '?']

/-- One iteration of the symbol loop:
`text.replace(f" {sym} ", sym).replace(f" {sym}", sym).replace(f"{sym} ", sym)`. -/
def symbolStep (text : List Char) (sym : Char) : List Char :=
  replaceAll [sym, ' '] [sym] (replaceAll [' ', sym] [sym] (replaceAll [' ', sym, ' '] [sym] text))

/-- Model of `_compress_text(text, aggressive)`. -/
def compressText (text : List Char) (aggressive : Bool) : List Char :=
  let t1 := if aggressive then stripBlockComments (stripLineComments text) else text
  let collapsed :=
    List.intercalate [' '] (pyWords (t1.map (fun c => if c = '\n' then ' ' else c)))
  compressSymbols.foldl symbolStep collapsed

/-! ### Index rendering (`_build_index_flat/_tree/_json` in pack.py) -/

/-- Per-file metadata collected during packing: `size` from
`os.path.getsize`, `lines` counted on the decoded text, `ext` from
`splitext` (`None` when empty). -/
structure FileMeta where
  size : Option Nat := none
  lines : Option Nat := none
  ext : Option (Option String) := none
deriving DecidableEq, Repr

def natStr (n : Nat) : String := Nat.repr n

/-- The `parts` list of one index line: path plus any requested metrics. -/
def indexLineParts (rel : String) (m : FileMeta) (inc : List String) : List (List Char) :=
  [rel.data]
    ++ (if "size" ∈ inc then
          match m.size with | some n => [("size=" ++ natStr n).data] | none => []
        else [])
    ++ (if "lines" ∈ inc then
          match m.lines with | some n => [("lines=" ++ natStr n).data] | none => []
        else [])

/-- Model of `_build_index_flat`. -/
def buildIndexFlat (files : List (String × FileMeta)) (inc : List String) : List Char :=
  List.intercalate ['\n']
    (files.map (fun fm => List.intercalate [' ', '\t'] (indexLineParts fm.1 fm.2 inc)))
    ++ ['\n']

/-- A node of the dynamic directory tree: an optional `"__file__"` entry
and named children in insertion order. -/
inductive TNode : Type where
  | node : Option FileMeta → List (String × TNode) → TNode

/-- Update child `k` (appending it, from `dflt`, when absent). -/
def updateChild (cs : List (String × TNode)) (k : String) (f : TNode → TNode) (dflt : TNode) :
    List (String × TNode) :=
  match cs with
  | [] => [(k, f dflt)]
  | (k', n) :: rest => if k' = k then (k', f n) :: rest else (k', n) :: updateChild rest k f dflt

/-- The per-file insertion walk of `_build_index_tree`. -/
def treeInsert : TNode → List String → FileMeta → TNode
  | .node fm cs, [], _ => .node fm cs
  | .node fm cs, [p], m =>
    .node fm (updateChild cs p (fun n => match n with | .node _ cc => .node (some m) cc)
      (.node none []))
  | .node fm cs, p :: q :: rest, m =>
    .node fm (updateChild cs p (fun n => treeInsert n (q :: rest) m) (.node none []))

def lookupChild (cs : List (String × TNode)) (k : String) : Option TNode :=
  match cs with
  | [] => none
  | (k', n) :: rest => if k' = k then some n else lookupChild rest k

/-- Lexicographic comparison on code points (Python string `<=`). -/
def charListLe : List Char → List Char → Bool
  | [], _ => true
  | _ :: _, [] => false
  | a :: as, b :: bs => a.toNat < b.toNat || (a = b && charListLe as bs)

def strLe (a b : String) : Bool := charListLe a.data b.data

/-- Insert before the first element that is `≥` under `le`. -/
def insertSorted {α : Type} (le : α → α → Bool) (x : α) : List α → List α
  | [] => [x]
  | y :: rest => if le x y then x :: y :: rest else y :: insertSorted le x rest

/-- Stable ascending sort (Python `sorted` / `list.sort` semantics for
a total preorder `le`). -/
def sortBy {α : Type} (le : α → α → Bool) : List α → List α
  | [] => []
  | x :: rest => insertSorted le x (sortBy le rest)

/-- The `render` closure of `_build_index_tree`, with explicit recursion
fuel (the tree depth is bounded by the path lengths, so the caller can
always supply enough). -/
def renderTreeAux : Nat → TNode → List Char → Nat → Option Nat → List String →
    List (List Char)
  | 0, _, _, _, _, _ => []
  | fuel + 1, .node fm cs, prefixCs, level, depthCap, inc =>
    if (match depthCap with | some d => decide (d ≤ level) | none => false) then []
    else
      let keys := sortBy strLe (cs.map Prod.fst)
      let childLines := keys.flatMap (fun k =>
        match lookupChild cs k with
        | some (TNode.node cfm ccs) =>
          match cfm with
          | none =>
            (prefixCs ++ k.data ++ ['/'])
              :: renderTreeAux fuel (.node cfm ccs) (prefixCs ++ [' ', ' ']) (level + 1)
                  depthCap inc
          | some m =>
            [List.intercalate [' ', '\t']
              ([prefixCs ++ k.data]
                ++ (if "size" ∈ inc then
                      match m.size with | some n => [("size=" ++ natStr n).data] | none => []
                    else [])
                ++ (if "lines" ∈ inc then
                      match m.lines with | some n => [("lines=" ++ natStr n).data] | none => []
                    else []))]
        | none => [])
      let ownLines :=
        match fm with
        | some m =>
          let parts := [prefixCs]
            ++ (if "size" ∈ inc then
                  match m.size with | some n => [("size=" ++ natStr n).data] | none => []
                else [])
            ++ (if "lines" ∈ inc then
                  match m.lines with | some n => [("lines=" ++ natStr n).data] | none => []
                else [])
          if parts ≠ [] ∧ pyStrip prefixCs ≠ [] then [List.intercalate [' ', '\t'] parts]
          else []
        | none => []
      childLines ++ ownLines

/-- Model of `_build_index_tree`. -/
def buildIndexTree (files : List (String × FileMeta)) (inc : List String)
    (depthCap : Option Nat) : List Char :=
  let tree := files.foldl
    (fun t fm => treeInsert t ((splitSep '/' fm.1.data).map (fun l => (⟨l⟩ : String))) fm.2)
    (.node none [])
  let fuel := (files.map (fun fm => (splitSep '/' fm.1.data).length)).sum + 1
  List.intercalate ['\n'] (renderTreeAux fuel tree [] 0 depthCap inc) ++ ['\n']

/-- Model of `os.path.abspath` on POSIX: `normpath(join(cwd, path))`. -/
def abspath (cwd p : String) : String := normpath (osJoin cwd p)

/-- JSON values as produced by the payload of `_build_index_json`. -/
inductive JVal : Type where
  | s (v : String)
  | n (v : Nat)
  | null
  | arr (xs : List JVal)
  | obj (fields : List (String × JVal))

def hexDigit (n : Nat) : Char := if n < 10 then Char.ofNat (48 + n) else Char.ofNat (87 + n)

def hex4 (n : Nat) : List Char :=
  [hexDigit (n / 4096 % 16), hexDigit (n / 256 % 16), hexDigit (n / 16 % 16), hexDigit (n % 16)]

/-- Model of `json.dumps` string escaping with `ensure_ascii=False`. -/
def jsonEscapeChar (c : Char) : List Char :=
  if c = '"' then ['\\', '"']
  else if c = '\\' then ['\\', '\\']
  else if c = '\n' then ['\\', 'n']
  else if c = '\t' then ['\\', 't']
  else if c = '\r' then ['\\', 'r']
  else if c = '\x08' then ['\\', 'b']
  else if c = '\x0c' then ['\\', 'f']
  else if c.toNat < 0x20 then '\\' :: 'u' :: hex4 c.toNat
  else [c]

def jsonStr (s : String) : List Char := '"' :: s.data.flatMap jsonEscapeChar ++ ['"']

/-- Model of `json.dumps(v, ensure_ascii=False, indent=2)` rendering at an indent
level (fuel-recursive; the fixed index payload has depth at most four, so
the constant fuel used below always suffices). -/
def jRender : Nat → Nat → JVal → List Char
  | 0, _, _ => []
  | fuel + 1, lvl, v =>
    match v with
    | .s str => jsonStr str
    | .n k => (natStr k).data
    | .null => "null".data
    | .arr [] => ['[', ']']
    | .arr (x :: xs) =>
      '[' :: '\n' ::
        List.intercalate [',', '\n']
          ((x :: xs).map (fun y => List.replicate (2 * (lvl + 1)) ' ' ++ jRender fuel (lvl + 1) y))
        ++ '\n' :: List.replicate (2 * lvl) ' ' ++ [']']
    | .obj [] => ['\x7b', '\x7d']
    | .obj (f :: fs) =>
      '\x7b' :: '\n' ::
        List.intercalate [',', '\n']
          ((f :: fs).map (fun kv =>
            List.replicate (2 * (lvl + 1)) ' ' ++ jsonStr kv.1 ++ ':' :: ' ' ::
              jRender fuel (lvl + 1) kv.2))
        ++ '\n' :: List.replicate (2 * lvl) ' ' ++ ['\x7d']

/-- Model of `os.path.splitext(rel)[1].lower() or "(none)"`. -/
def extKey (rel : String) : String :=
  let e := (splitextChars rel.data).2.map Char.toLower
  if e = [] then "(none)" else ⟨e⟩

/-- Model of `by_ext[ext] = by_ext.get(ext, 0) + 1` on an insertion-ordered map. -/
def bumpKey : List (String × Nat) → String → List (String × Nat)
  | [], k => [(k, 1)]
  | (k', v) :: rest, k =>
    if k' = k then (k', v + 1) :: rest else (k', v) :: bumpKey rest k

/-- Model of `_build_index_json(files, root_dir)` (the caller passes the absolute
root). -/
def buildIndexJson (files : List (String × FileMeta)) (rootAbs : String) : List Char :=
  let byExt := files.foldl (fun h fm => bumpKey h (extKey fm.1)) []
  let fileObj := fun (fm : String × FileMeta) =>
    JVal.obj ([("path", JVal.s fm.1)]
      ++ (match fm.2.size with | some n => [("size", JVal.n n)] | none => [])
      ++ (match fm.2.lines with | some n => [("lines", JVal.n n)] | none => [])
      ++ (match fm.2.ext with
          | some (some e) => [("ext", JVal.s e)]
          | some none => [("ext", JVal.null)]
          | none => []))
  let payload := JVal.obj
    [("schema_version", JVal.s "1"),
     ("root", JVal.s rootAbs),
     ("files", JVal.arr (files.map fileObj)),
     ("totals", JVal.obj
       [("files", JVal.n files.length),
        ("bytes", JVal.n ((files.map (fun fm => fm.2.size.getD 0)).sum)),
        ("by_ext", JVal.obj (byExt.map (fun kv => (kv.1, JVal.n kv.2))))])]
  jRender 8 0 payload ++ ['\n']

/-! ### base64 and the gzip envelope -/

/-- Byte value of the standard base64 alphabet character for `k < 64`. -/
def b64Char (k : Nat) : Nat :=
  if k < 26 then 65 + k
  else if k < 52 then 97 + (k - 26)
  else if k < 62 then 48 + (k - 52)
  else if k = 62 then 43 else 47

/-- Model of `base64.b64encode`. -/
def b64Encode : List Nat → List Nat
  | [] => []
  | [b1] => [b64Char (b1 / 4), b64Char (b1 % 4 * 16), 61, 61]
  | [b1, b2] => [b64Char (b1 / 4), b64Char (b1 % 4 * 16 + b2 / 16), b64Char (b2 % 16 * 4), 61]
  | b1 :: b2 :: b3 :: rest =>
    b64Char (b1 / 4) :: b64Char (b1 % 4 * 16 + b2 / 16) :: b64Char (b2 % 16 * 4 + b3 / 64)
      :: b64Char (b3 % 64) :: b64Encode rest

/-- Inverse alphabet lookup. -/
def b64Val (c : Nat) : Nat :=
  if 65 ≤ c ∧ c ≤ 90 then c - 65
  else if 97 ≤ c ∧ c ≤ 122 then c - 97 + 26
  else if 48 ≤ c ∧ c ≤ 57 then c - 48 + 52
  else if c = 43 then 62
  else if c = 47 then 63 else 0

/-- Model of `base64.b64decode` on well-padded input. -/
def b64Decode : List Nat → List Nat
  | c1 :: c2 :: c3 :: c4 :: rest =>
    if c3 = 61 then [b64Val c1 * 4 + b64Val c2 / 16]
    else if c4 = 61 then
      [b64Val c1 * 4 + b64Val c2 / 16, b64Val c2 % 16 * 16 + b64Val c3 / 4]
    else
      (b64Val c1 * 4 + b64Val c2 / 16) :: (b64Val c2 % 16 * 16 + b64Val c3 / 4)
        :: (b64Val c3 % 4 * 64 + b64Val c4) :: b64Decode rest
  | _ => []

def le32 (n : Nat) : List Nat :=
  [n % 256, n / 256 % 256, n / 65536 % 256, n / 16777216 % 256]

/-- Model of the gzip member written by `gzip.GzipFile(fileobj=buf,
mode="wb")`: magic `1f 8b`, method 8, flags 0, 4-byte little-endian
MTIME — the wall clock at write time — then XFL, OS, the deflate body
and the CRC32/ISIZE trailer.  The `deflate` and `crc32` functions are
parameters; the claims below depend only on the header layout. -/
def gzipBytes (deflate : List Nat → List Nat) (crc32 : List Nat → Nat) (mtime : Nat)
    (data : List Nat) : List Nat :=
  [31, 139, 8, 0] ++ le32 mtime ++ [2, 255]
    ++ deflate data ++ le32 (crc32 data) ++ le32 (data.length % 4294967296)

/-! ### Packing (`PackConfig`, `apply_defaults`, `pack_directory`) -/

structure PackConfig where
  input_dir : String := "."
  output_file : String := "corpus-out.txt"
  include_globs : Option (List String) := none
  exclude_globs : Option (List String) := none
  verbose : Bool := false
  compress : Bool := false
  max_compress : Bool := false
  gzip_out : Bool := false
  base64_out : Bool := false
  write_index : Bool := false
  index_only : Bool := false
  index_style : String := "flat"
  index_output : Option String := none
  index_include : Option (List String) := none
  index_depth : Option Nat := none
deriving DecidableEq, Repr

def defaultExcludes : List String :=
  ["**/.git/**", "**/node_modules/**", "**/venv/**", "**/__pycache__/**", "**/bin/**"]

/-- Model of `apply_defaults(cfg)`; the `ValueError` for `--base64` without
`--gzip` becomes the `Except.error` case. -/
def applyDefaults (cfg : PackConfig) : Except String PackConfig :=
  let inc := (cfg.include_globs.getD [])
  let exc := match cfg.exclude_globs with
    | none => defaultExcludes
    | some [] => defaultExcludes
    | some l => defaultExcludes ++ l
  if cfg.base64_out ∧ ¬cfg.gzip_out then .error "--base64 requires --gzip"
  else
    let ii := cfg.index_include.getD []
    let style :=
      if cfg.index_style = "flat" ∨ cfg.index_style = "tree" ∨ cfg.index_style = "json" then
        cfg.index_style
      else "flat"
    .ok { cfg with include_globs := some inc, exclude_globs := some exc,
                   index_include := some ii, index_style := style }

/-- One file as yielded by the (pruned) `os.walk` loop: the computed
relative path, the text read with `errors="ignore"`, and the on-disk
byte size reported by `os.path.getsize`. -/
structure WalkFile where
  rel : String
  content : String
  size : Nat
deriving DecidableEq, Repr

/-- The mutable accumulators of the walk loop of `pack_directory`. -/
structure LoopState where
  body : List Char := []
  processed : List String := []
  skipped : List String := []
  indexFiles : List (String × FileMeta) := []
deriving DecidableEq, Repr

def indexRequested (cfg : PackConfig) : Bool :=
  cfg.write_index || cfg.index_only || cfg.index_output.isSome

/-- The metadata collected for one processed file when indexing is on. -/
def fileMetaOf (f : WalkFile) : FileMeta :=
  { size := some f.size
  , lines := some (f.content.data.count '\n'
      + (if f.content.data ≠ [] ∧ f.content.data.getLast? ≠ some '\n' then 1 else 0))
  , ext := some (let e := (splitextChars f.rel.data).2
                 if e = [] then none else some (⟨e⟩ : String)) }

/-- The per-file body of the loop of `pack_directory`.  (The `verbose` branch
of the source writes exactly the same three pieces as the default branch,
so it is not distinguished here.) -/
def packFileStep (cfg : PackConfig) (st : LoopState) (f : WalkFile) : LoopState :=
  if shouldExclude f.rel (cfg.exclude_globs.getD [])
      || !shouldInclude f.rel (cfg.include_globs.getD []) then
    { st with skipped := st.skipped ++ [f.rel] }
  else
    let st1 := if indexRequested cfg then
        { st with indexFiles := st.indexFiles ++ [(f.rel, fileMetaOf f)] }
      else st
    let contentOut := if cfg.compress then compressText f.content.data cfg.max_compress
      else f.content.data
    let startSep := if cfg.compress then ("--- START OF FILE: " ++ f.rel ++ " --- ").data
      else ("--- START OF FILE: " ++ f.rel ++ " ---\n").data
    let endSep := if cfg.compress then (" --- END OF FILE: " ++ f.rel ++ " --- ").data
      else ("\n--- END OF FILE: " ++ f.rel ++ " ---\n\n").data
    let st2 := if cfg.index_only then st1
      else { st1 with body := st1.body ++ startSep ++ contentOut ++ endSep }
    { st2 with processed := st2.processed ++ [f.rel] }

def runLoop (fs : List WalkFile) (cfg : PackConfig) : LoopState :=
  fs.foldl (packFileStep cfg) {}

/-- The rendered index text (over the path-sorted collected entries). -/
def packIndexText (cwd : String) (indexFiles : List (String × FileMeta)) (cfg : PackConfig) :
    List Char :=
  let sortedIdx := sortBy (fun a b => strLe a.1 b.1) indexFiles
  if cfg.index_style = "json" then buildIndexJson sortedIdx (abspath cwd cfg.input_dir)
  else if cfg.index_style = "tree" then
    buildIndexTree sortedIdx (cfg.index_include.getD []) cfg.index_depth
  else buildIndexFlat sortedIdx (cfg.index_include.getD [])

/-- The unwrapped bundle text (`data` just before `.encode("utf-8")`),
for a configuration on which `apply_defaults` has already run. -/
def packDataStr (cwd : String) (fs : List WalkFile) (cfg : PackConfig) : List Char :=
  let st := runLoop fs cfg
  let indexText := if indexRequested cfg then packIndexText cwd st.indexFiles cfg else []
  if cfg.index_only then []
  else if indexText ≠ [] ∧ cfg.index_output = none then
    ("--- FILE INDEX START ---\n").data ++ indexText ++ ("--- FILE INDEX END ---\n\n").data
      ++ st.body
  else st.body

/-- The pre-envelope byte stream (`raw_bytes`). -/
def packRawBytes (cwd : String) (fs : List WalkFile) (cfg : PackConfig) : List Nat :=
  utf8Encode (packDataStr cwd fs cfg)

/-- The final stats dictionary.  Its fifth entry `compression_ratio` is
`round(bundle_size / total_bytes, 2)` — a float computation — when
`total_bytes > 0` and the integer `0` otherwise; only its two integer
inputs are modelled. -/
structure PackStats where
  bundle_size : Nat
  files_processed : Nat
  files_skipped : Nat
  total_bytes : Nat
deriving DecidableEq, Repr

structure PackOutput where
  outBytes : List Nat
  indexFileText : Option (List Char)
  stats : PackStats
deriving DecidableEq, Repr

/-- Model of `pack_directory(cfg)`.  `gz` is the gzip compression stage (an
external library call, see `gzipBytes` for its header layout); `cwd` is
the process working directory used by `os.path.abspath`; `fs` lists the
files yielded by the pruned `os.walk` traversal in order. -/
def pack_directory (gz : List Nat → List Nat) (cwd : String) (fs : List WalkFile)
    (cfg0 : PackConfig) : Except String PackOutput :=
  match applyDefaults cfg0 with
  | .error e => .error e
  | .ok cfg =>
    let st := runLoop fs cfg
    let raw := packRawBytes cwd fs cfg
    let out1 := if cfg.gzip_out then gz raw else raw
    let out2 := if cfg.base64_out then b64Encode out1 else out1
    .ok { outBytes := out2
        , indexFileText :=
            if cfg.index_output.isSome then some (packIndexText cwd st.indexFiles cfg) else none
        , stats :=
          { bundle_size := out2.length
          , files_processed := st.processed.length
          , files_skipped := st.skipped.length
          , total_bytes := (st.indexFiles.map (fun fm => fm.2.size.getD 0)).sum } }


/-! ### BundleSource (sources.py): offset index and retrieval -/

def startMarkBytes : List Nat := strBytes "--- START OF FILE: "
def endMarkBytes : List Nat := strBytes "--- END OF FILE: "

/-- Python regex `\s` over bytes. -/
def isPySpaceByte (b : Nat) : Bool := b = 32 || b = 9 || b = 10 || b = 13 || b = 11 || b = 12

/-- Strip the trailing `\s*` run (the regex tail `\s*$` on a whole line). -/
def stripTrailingWs (l : List Nat) : List Nat :=
  (l.reverse.dropWhile isPySpaceByte).reverse

/-- Model of `^<head>(.+) ---\s*$` applied to one raw line: after stripping the
trailing whitespace run, the line must start with the literal head and
end with ` ---`; the greedy group is the non-empty, newline-free middle. -/
def parseMarker (head : List Nat) (line : List Nat) : Option (List Nat) :=
  let s := stripTrailingWs line
  let mid := (s.drop head.length).take (s.length - head.length - 4)
  if head.isPrefixOf s ∧ (strBytes " ---").isSuffixOf s ∧ mid ≠ [] ∧ mid.all (· ≠ 10) then
    some mid
  else none

/-- Model of `START_RE_B.match(raw_line)`, returning the captured path bytes. -/
def parseStartLine (line : List Nat) : Option (List Nat) := parseMarker startMarkBytes line

/-- Model of `END_RE_B.match(raw_line)`, returning the captured path bytes. -/
def parseEndLine (line : List Nat) : Option (List Nat) := parseMarker endMarkBytes line

/-- Insertion-ordered dict write `m[k] = v`. -/
def setAssoc {beta : Type} : List (List Char × beta) → List Char → beta → List (List Char × beta)
  | [], k, v => [(k, v)]
  | (k', v') :: rest, k, v =>
    if k' = k then (k', v) :: rest else (k', v') :: setAssoc rest k v

def lookupAssoc {beta : Type} : List (List Char × beta) → List Char → Option beta
  | [], _ => none
  | (k, v) :: rest, key => if k = key then some v else lookupAssoc rest key

/-- The scan state of `BundleSource._build_index`. -/
structure ScanState where
  offset : Nat := 0
  currentPath : Option (List Char) := none
  startPos : Option Nat := none
  index : List (List Char × (Nat × Nat)) := []
deriving DecidableEq, Repr

/-- One iteration of the byte-wise line scan: a START match records the
decoded path and the offset after the line; otherwise an END match with
an entry open stores `(start_pos, offset-before-this-line)` and clears
the open state; every line advances the offset by its byte length. -/
def scanStep (st : ScanState) (line : List Nat) : ScanState :=
  let n := line.length
  match parseStartLine line with
  | some p =>
    { st with currentPath := some (utf8Decode p), startPos := some (st.offset + n),
              offset := st.offset + n }
  | none =>
    match parseEndLine line with
    | some _ =>
      match st.currentPath, st.startPos with
      | some cp, some sp =>
        { offset := st.offset + n, currentPath := none, startPos := none,
          index := setAssoc st.index cp (sp, st.offset) }
      | _, _ => { st with offset := st.offset + n }
    | none => { st with offset := st.offset + n }

/-- The first pass of `BundleSource._build_index` over the raw bundle bytes. -/
def buildIndex (stream : List Nat) : List (List Char × (Nat × Nat)) :=
  ((splitLines stream).foldl scanStep {}).index

/-- The filename-only fallback parse of a `FILE INDEX` section (text
mode; the loop breaks at the END marker line). -/
def filesOnlyAux : Bool → List (List Char) → List (List Char)
  | _, [] => []
  | inIdx, line :: rest =>
    if ("--- FILE INDEX START ---").data.isPrefixOf line then filesOnlyAux true rest
    else if ("--- FILE INDEX END ---").data.isPrefixOf line then []
    else if inIdx then
      let name := pyStrip line
      if name ≠ [] then name :: filesOnlyAux inIdx rest else filesOnlyAux inIdx rest
    else filesOnlyAux inIdx rest

def filesOnlyOf (stream : List Nat) : List (List Char) :=
  filesOnlyAux false (splitLinesStr (utf8Decode stream))

/-- A constructed `BundleSource`: the offset index, and, exactly when it
came out empty, the filename-only listing. -/
structure BundleSource where
  index : List (List Char × (Nat × Nat))
  filesOnly : List (List Char)
deriving DecidableEq, Repr

def bundleSourceOf (stream : List Nat) : BundleSource :=
  let idx := buildIndex stream
  { index := idx, filesOnly := if idx = [] then filesOnlyOf stream else [] }

/-- Model of `BundleSource.list_files`. -/
def bundleListFiles (src : BundleSource) : List (List Char) :=
  if src.index ≠ [] then sortBy charListLe (src.index.map Prod.fst)
  else if src.filesOnly ≠ [] then sortBy charListLe src.filesOnly.dedup
  else []

/-- The optional line-range slice shared by both sources: 1-based lines,
skip below `start?`, stop above `end?`. -/
def sliceLinesAux (startB endB : Option Nat) : Nat → List (List Char) → List (List Char)
  | _, [] => []
  | i, l :: rest =>
    if (match startB with | some s => decide (i < s) | none => false) then
      sliceLinesAux startB endB (i + 1) rest
    else if (match endB with | some e => decide (e < i) | none => false) then []
    else l :: sliceLinesAux startB endB (i + 1) rest

/-- Model of `BundleSource.get_file`: seek to the recorded span, read
`end - start` bytes, decode permissively, optionally slice lines.
Unknown paths raise `FileNotFoundError`. -/
def bundleGetFile (stream : List Nat) (src : BundleSource) (path : String)
    (startB endB : Option Nat) : Except String (List Char) :=
  match lookupAssoc src.index path.data with
  | none => .error ("FileNotFoundError: " ++ path)
  | some (sp, ep) =>
    let content := utf8Decode ((stream.drop sp).take (ep - sp))
    if startB.isNone ∧ endB.isNone then .ok content
    else .ok (sliceLinesAux startB endB 1 (splitLinesStr content)).flatten

/-! ### DirSource and search (sources.py) -/

def fsLookup (fs : List (String × String)) (p : String) : Option String :=
  match fs with
  | [] => none
  | (k, v) :: rest => if k = p then some v else fsLookup rest p

/-- Model of `DirSource.get_file`: `open(os.path.join(self.root_dir, path))` with
permissive decode and the optional line slice.  The host kernel resolves
`.`/`..` segments of the joined path textually (no symlinks modelled),
i.e. by `normpath`; the modelled filesystem maps resolved absolute paths
to decoded text. -/
def dirGetFile (rootDir : String) (fs : List (String × String)) (path : String)
    (startB endB : Option Nat) : Except String String :=
  let absPath := osJoin rootDir path
  match fsLookup fs (normpath absPath) with
  | none => .error ("FileNotFoundError: " ++ absPath)
  | some content =>
    if startB.isNone ∧ endB.isNone then .ok content
    else .ok ⟨(sliceLinesAux startB endB 1 (splitLinesStr content.data)).flatten⟩

/-- ASCII word characters (`\w` of the query tokenizer). -/
def isWordChar (c : Char) : Bool :=
  ('a' ≤ c ∧ c ≤ 'z') || ('A' ≤ c ∧ c ≤ 'Z') || ('0' ≤ c ∧ c ≤ '9') || c = '_'

/-- Maximal word-character runs: the findall of word-boundary tokens over the query. -/
def wordTokensAux (cur : List Char) : List Char → List (List Char)
  | [] => if cur.isEmpty then [] else [cur.reverse]
  | c :: rest =>
    if isWordChar c then wordTokensAux (c :: cur) rest
    else if cur.isEmpty then wordTokensAux [] rest
    else cur.reverse :: wordTokensAux [] rest

/-- Query tokenization with the whole-query fallback. -/
def tokenizeQuery (query : String) : List String :=
  let ts := (wordTokensAux [] query.data).map (fun l => (⟨l⟩ : String))
  if ts.isEmpty then [query] else ts

/-- Does `needle` occur as a contiguous substring of `hay`? -/
def containsSub : List Char → List Char → Bool
  | hay, needle =>
    match hay with
    | [] => needle.isEmpty
    | _ :: rest => needle.isPrefixOf hay || containsSub rest needle

def lowerStr (l : List Char) : List Char := l.map Char.toLower

/-- Model of `re.compile(re.escape(token), flags).search(line)`: literal substring
match, case-insensitively unless `case_sensitive`. -/
def patternSearch (token : String) (line : List Char) (caseSensitive : Bool) : Bool :=
  if caseSensitive then containsSub line token.data
  else containsSub (lowerStr line) (lowerStr token.data)

def noisePatterns : List String :=
  ["changelog", "package-lock", "yarn.lock", "go.sum", ".min.", "dist/", "build/",
   "node_modules/"]

/-- The file-type bonus of `calculate_score` (on the lowercased basename). -/
def fileTypeBonus (filename : List Char) : Int :=
  if ".md".data.isSuffixOf filename then 15
  else if (([".py", ".js", ".ts", ".go", ".rs", ".java", ".c", ".cpp"] : List String).any
      (fun e => e.data.isSuffixOf filename)) then 10
  else if (([".json", ".yaml", ".yml", ".toml"] : List String).any
      (fun e => e.data.isSuffixOf filename)) then 5
  else 0

/-- Model of `calculate_score(path, line_matches)` of `DirSource.search` (the
token list is the `tokens` captured by the closure). -/
def calculate_score (tokens : List String) (path : String) (lineMatches : Nat) : Int :=
  let pathLower := lowerStr path.data
  let filename := basenameChars pathLower
  let score1 : Int := (lineMatches : Int) * 10
  let filenameMatches :=
    (tokens.filter (fun t => containsSub filename (lowerStr t.data))).length
  let score2 := score1 + (filenameMatches : Int) * 20
  let score3 := score2 + fileTypeBonus filename
  let score4 :=
    if noisePatterns.any (fun np => containsSub pathLower np.data) then score3 - 30 else score3
  max score4 0

structure FileHit where
  path : String
  line : Nat
  snippet : String
  score : Int
deriving DecidableEq, Repr

/-- The per-file line loop of `DirSource.search`: a line is a hit when at
least one token pattern matches it; `matches` counts the matching
patterns (one pattern per token occurrence). -/
def searchLinesAux (tokens : List String) (caseSensitive : Bool) (rel : String) :
    Nat → List (List Char) → List FileHit
  | _, [] => []
  | i, line :: rest =>
    let nMatch := (tokens.filter (fun t => patternSearch t line caseSensitive)).length
    if nMatch > 0 then
      { path := rel, line := i, snippet := ⟨pyStrip line⟩,
        score := calculate_score tokens rel nMatch }
        :: searchLinesAux tokens caseSensitive rel (i + 1) rest
    else searchLinesAux tokens caseSensitive rel (i + 1) rest

/-- Model of `DirSource.search`: tokenize, score every matching line of every
listed file, sort by score descending (stable), truncate. -/
def dirSearch (rootDir : String) (fs : List (String × String)) (files : List String)
    (query : String) (maxResults : Nat) (caseSensitive : Bool) : List FileHit :=
  let tokens := tokenizeQuery query
  let results := files.flatMap (fun rel =>
    match fsLookup fs (normpath (osJoin rootDir rel)) with
    | some content => searchLinesAux tokens caseSensitive rel 1 (splitLinesStr content.data)
    | none => [])
  (sortBy (fun a b => decide (b.score ≤ a.score)) results).take maxResults


/-! ### Shared lemmas -/

/-- Does the file survive the exclude-then-include filter? -/
def passesFilter (cfg : PackConfig) (f : WalkFile) : Bool :=
  !(shouldExclude f.rel (cfg.exclude_globs.getD [])
    || !shouldInclude f.rel (cfg.include_globs.getD []))

/-- The bytes one processed file contributes to the bundle body. -/
def blockOf (cfg : PackConfig) (f : WalkFile) : List Char :=
  let contentOut := if cfg.compress then compressText f.content.data cfg.max_compress
    else f.content.data
  let startSep := if cfg.compress then ("--- START OF FILE: " ++ f.rel ++ " --- ").data
    else ("--- START OF FILE: " ++ f.rel ++ " ---\n").data
  let endSep := if cfg.compress then (" --- END OF FILE: " ++ f.rel ++ " --- ").data
    else ("\n--- END OF FILE: " ++ f.rel ++ " ---\n\n").data
  startSep ++ contentOut ++ endSep

/-- The quantity the spec calls "total pre-compression content bytes of
the processed files" (modelled from the words of the spec, for
comparison with the `total_bytes` of the code). -/
def specTotalContentBytes (fs : List WalkFile) (cfg : PackConfig) : Nat :=
  ((fs.filter (passesFilter cfg)).map WalkFile.size).sum

/-- Number of query tokens (with multiplicity) whose lowercase text
occurs in the lowercased basename. -/
def filenameMatchCount (tokens : List String) (path : String) : Nat :=
  (tokens.filter (fun t => containsSub (basenameChars (lowerStr path.data)) (lowerStr t.data))).length

/-- Does the lowercased path contain one of the noise substrings? -/
def isNoisyPath (path : String) : Bool :=
  noisePatterns.any (fun np => containsSub (lowerStr path.data) np.data)

/-- Modelled from the formula of the spec with "number of *distinct*
tokens matching this line" read literally (deduplicated token list); for
comparison with the per-pattern count of the code. -/
def specScoreDistinct (tokens : List String) (path : String) (line : List Char)
    (caseSensitive : Bool) : Int :=
  let distinct := (tokens.dedup.filter (fun t => patternSearch t line caseSensitive)).length
  max (10 * (distinct : Int) + 20 * (filenameMatchCount tokens path : Int)
    + fileTypeBonus (basenameChars (lowerStr path.data))
    - (if isNoisyPath path then 30 else 0)) 0

/-- The spec formula amended: the line term counts tokens with
multiplicity (one per occurrence in the tokenized query). -/
def specScoreMult (tokens : List String) (path : String) (lineMatches : Nat) : Int :=
  max (10 * (lineMatches : Int) + 20 * (filenameMatchCount tokens path : Int)
    + fileTypeBonus (basenameChars (lowerStr path.data))
    - (if isNoisyPath path then 30 else 0)) 0

def startLineBytes (pb : List Nat) : List Nat := startMarkBytes ++ pb ++ strBytes " ---" ++ [10]

def endLineBytes (pb : List Nat) : List Nat := endMarkBytes ++ pb ++ strBytes " ---" ++ [10]

/-- The byte stream one plain-mode (no transform) processed file
contributes to the bundle: start marker line, content plus the separator
newline, end marker line, blank line. -/
def blockBytes (f : WalkFile) : List Nat :=
  startLineBytes (utf8Encode f.rel.data)
    ++ ((utf8Encode f.content.data ++ [10]) ++ (endLineBytes (utf8Encode f.rel.data) ++ [10]))

def blocksBytes : List WalkFile → List Nat
  | [] => []
  | f :: rest => blockBytes f ++ blocksBytes rest

/-- The offset index accumulated by scanning the blocks of `fl` from byte
offset `off` (keys are the ASCII relative paths). -/
def idxAfter (idx : List (List Char × (Nat × Nat))) (off : Nat) :
    List WalkFile → List (List Char × (Nat × Nat))
  | [] => idx
  | f :: rest =>
    idxAfter (setAssoc idx f.rel.data
        (off + (startLineBytes (utf8Encode f.rel.data)).length,
         off + (startLineBytes (utf8Encode f.rel.data)).length
           + ((utf8Encode f.content.data).length + 1)))
      (off + (blockBytes f).length) rest

theorem applyDefaults_ok_fields (cfg cfg' : PackConfig) (h : applyDefaults cfg = .ok cfg') :
    cfg'.gzip_out = cfg.gzip_out ∧ cfg'.base64_out = cfg.base64_out
      ∧ cfg'.compress = cfg.compress ∧ cfg'.index_only = cfg.index_only
      ∧ cfg'.write_index = cfg.write_index ∧ cfg'.index_output = cfg.index_output := by
  unfold applyDefaults at h
  by_cases hb : cfg.base64_out ∧ ¬cfg.gzip_out
  · rw [if_pos hb] at h; exact absurd h (by simp)
  · rw [if_neg hb] at h
    simp only [Except.ok.injEq] at h
    subst h; simp

/-! ### C10: defaulting an invalid index_style -/

/-- C10 counterexample: a config whose `index_style` is invalid but which
also sets `base64_out` without `gzip_out` makes `apply_defaults` fail, so
the claim "applying configuration defaults does not fail" does not hold
for every config with an invalid style. -/
theorem c10_defaults_can_fail :
    applyDefaults ({ index_style := "bogus", base64_out := true } : PackConfig)
      = .error "--base64 requires --gzip" := by decide

/-- C10 (amended): for every config that does not request base64 without
gzip, defaulting succeeds, the resulting style is one of the three valid
ones, and an invalid input style is silently replaced by `"flat"`. -/
theorem c10_invalid_style_defaults_to_flat (cfg : PackConfig)
    (hb : ¬(cfg.base64_out ∧ ¬cfg.gzip_out)) :
    ∃ cfg', applyDefaults cfg = .ok cfg'
      ∧ (cfg'.index_style = "flat" ∨ cfg'.index_style = "tree" ∨ cfg'.index_style = "json")
      ∧ ((cfg.index_style ≠ "flat" ∧ cfg.index_style ≠ "tree" ∧ cfg.index_style ≠ "json") →
          cfg'.index_style = "flat") := by
  unfold applyDefaults
  rw [if_neg hb]
  refine ⟨_, rfl, ?_, ?_⟩
  · by_cases hs : cfg.index_style = "flat" ∨ cfg.index_style = "tree" ∨ cfg.index_style = "json"
    · simpa [if_pos hs] using hs
    · simp [if_neg hs]
  · intro hinv
    have hs : ¬(cfg.index_style = "flat" ∨ cfg.index_style = "tree" ∨ cfg.index_style = "json") := by
      rcases hinv with ⟨h1, h2, h3⟩
      rintro (h | h | h) <;> contradiction
    simp [if_neg hs]

/-- C10 witness: the amended theorem applied at a concrete config with an
invalid style. -/
theorem c10_witness :
    ∃ cfg', applyDefaults ({ index_style := "bogus" } : PackConfig) = .ok cfg'
      ∧ (cfg'.index_style = "flat" ∨ cfg'.index_style = "tree" ∨ cfg'.index_style = "json")
      ∧ ((({ index_style := "bogus" } : PackConfig).index_style ≠ "flat"
            ∧ ({ index_style := "bogus" } : PackConfig).index_style ≠ "tree"
            ∧ ({ index_style := "bogus" } : PackConfig).index_style ≠ "json") →
          cfg'.index_style = "flat") :=
  c10_invalid_style_defaults_to_flat ({ index_style := "bogus" } : PackConfig) (by decide)

/-! ### C7: tree index rendering order -/

/-- C7: at the concrete file list `[a.txt, z/c.txt]` the tree renderer
emits the file line `a.txt` before the directory line `z/`: at each level
the sorted key loop interleaves files and directories instead of
rendering all subdirectories first as the inline code comment ("directories
first, then files") and the spec state. -/
theorem c7_tree_renders_file_before_directory :
    buildIndexTree [("a.txt", {}), ("z/c.txt", {})] [] none
      = "a.txt\nz/\n  c.txt\n".data := by decide

/-! ### C2: directory source path traversal -/

/-- C2 counterexample: with root `/r`, `get_file("../secret.txt")`
resolves to `/secret.txt` — outside the root — and returns the content of that
file instead of rejecting the request. -/
theorem c2_traversal_not_rejected :
    dirGetFile "/r" [("/r/a.txt", "inside"), ("/secret.txt", "S")] "../secret.txt" none none
      = .ok "S"
    ∧ normpath (osJoin "/r" "../secret.txt") = "/secret.txt"
    ∧ ("/r/".data.isPrefixOf "/secret.txt".data) = false := by decide

/-- C2 (amended): `DirSource.get_file` performs no containment check at
all: whenever the join of root and requested path resolves to a readable
file — wherever that file lives — its content is returned. -/
theorem c2_get_file_has_no_traversal_check (rootDir : String) (fs : List (String × String))
    (path content : String)
    (h : fsLookup fs (normpath (osJoin rootDir path)) = some content) :
    dirGetFile rootDir fs path none none = .ok content := by
  unfold dirGetFile
  simp [h]

/-- C2 witness: the amended theorem at the input of the counterexample. -/
theorem c2_witness :
    dirGetFile "/r" [("/r/a.txt", "inside"), ("/secret.txt", "S")] "../secret.txt" none none
      = .ok "S" :=
  c2_get_file_has_no_traversal_check "/r" [("/r/a.txt", "inside"), ("/secret.txt", "S")]
    "../secret.txt" "S" (by decide)

/-! ### C3: END markers during the bundle scan -/

/-- C3 counterexample: an END marker whose captured path (`b.txt`) does
not equal the open path (`a.txt`) still closes the entry and stores its
span in the offset index — the entry is not dropped. -/
theorem c3_mismatched_end_still_closes :
    buildIndex (utf8Encode "--- START OF FILE: a.txt ---\nx\n--- END OF FILE: b.txt ---\n".data)
      = [("a.txt".data, (29, 31))] := by decide

/-- C3 (amended): during the scan an END marker line closes the currently
open entry regardless of the path it captures, storing
`(start, offset-before-the-END-line)` under the *open* path; an END
marker with no entry open only advances the offset. -/
theorem c3_end_marker_behavior :
    (∀ (st : ScanState) (line : List Nat) (cp : List Char) (sp : Nat),
      parseStartLine line = none → (parseEndLine line).isSome →
      st.currentPath = some cp → st.startPos = some sp →
      scanStep st line =
        { offset := st.offset + line.length, currentPath := none, startPos := none,
          index := setAssoc st.index cp (sp, st.offset) })
    ∧ (∀ (st : ScanState) (line : List Nat),
      parseStartLine line = none → (parseEndLine line).isSome →
      st.currentPath = none →
      scanStep st line = { st with offset := st.offset + line.length }) := by
  constructor
  · intro st line cp sp hstart hend hcp hsp
    obtain ⟨q, hq⟩ := Option.isSome_iff_exists.mp hend
    unfold scanStep
    rw [hstart, hq, hcp, hsp]
  · intro st line hstart hend hcp
    obtain ⟨q, hq⟩ := Option.isSome_iff_exists.mp hend
    unfold scanStep
    rw [hstart, hq, hcp]

/-- C3 witness: the amended theorem at the counterexample END line with
a mismatched captured path. -/
theorem c3_witness :
    scanStep { offset := 31, currentPath := some "a.txt".data, startPos := some 29, index := [] }
        (strBytes "--- END OF FILE: b.txt ---\n")
      = { offset := 58, currentPath := none, startPos := none,
          index := [("a.txt".data, (29, 31))] } := by
  have h := c3_end_marker_behavior.1
    { offset := 31, currentPath := some "a.txt".data, startPos := some 29, index := [] }
    (strBytes "--- END OF FILE: b.txt ---\n") "a.txt".data 29
    (by decide) (by decide) rfl rfl
  exact h.trans (by decide)

/-! ### C9: idempotence of packing -/

/-- C9 (amended): without the gzip envelope the packed output is a pure
function of the walked files and the configuration — it does not depend
on the wall clock, so packing the same unchanged directory twice with the
same config yields byte-identical output.  (The gzip stage is the
function parameter of `pack_directory`; two runs at different times pass
different stages, which is why the theorem quantifies over two of them.) -/
theorem c9_pack_deterministic_without_gzip (gz1 gz2 : List Nat → List Nat) (cwd : String)
    (fs : List WalkFile) (cfg : PackConfig) (h : cfg.gzip_out = false) :
    pack_directory gz1 cwd fs cfg = pack_directory gz2 cwd fs cfg := by
  unfold pack_directory
  cases hd : applyDefaults cfg with
  | error e => rfl
  | ok cfg' =>
    have hg : cfg'.gzip_out = false := ((applyDefaults_ok_fields cfg cfg' hd).1).trans h
    simp [hg]

/-- C9 counterexample: with the gzip envelope on, the gzip member header
embeds the wall-clock MTIME, so two packs of the same unchanged directory
with the identical config at different times (MTIME 0 vs 1) differ. -/
theorem c9_gzip_output_differs_across_runs :
    pack_directory (gzipBytes id (fun _ => 0) 0) "/" [⟨"a.txt", "hello", 5⟩]
        ({ gzip_out := true } : PackConfig)
      ≠ pack_directory (gzipBytes id (fun _ => 0) 1) "/" [⟨"a.txt", "hello", 5⟩]
        ({ gzip_out := true } : PackConfig) := by decide

/-- C9 witness: the amended theorem at a concrete non-gzip config and two
distinct gzip stages. -/
theorem c9_witness :
    pack_directory id "/" [⟨"a.txt", "hello", 5⟩] ({} : PackConfig)
      = pack_directory (fun l => 0 :: l) "/" [⟨"a.txt", "hello", 5⟩] ({} : PackConfig) :=
  c9_pack_deterministic_without_gzip id (fun l => 0 :: l) "/" [⟨"a.txt", "hello", 5⟩] {} rfl

/-! ### The walk loop characterized (shared by C4, C8, C1) -/

theorem packFileStep_spec (cfg : PackConfig) (st : LoopState) (f : WalkFile) :
    packFileStep cfg st f =
      if passesFilter cfg f then
        { body := st.body ++ (if cfg.index_only then [] else blockOf cfg f)
        , processed := st.processed ++ [f.rel]
        , skipped := st.skipped
        , indexFiles := st.indexFiles
            ++ (if indexRequested cfg then [(f.rel, fileMetaOf f)] else []) }
      else { st with skipped := st.skipped ++ [f.rel] } := by
  unfold packFileStep passesFilter blockOf
  by_cases hf : (shouldExclude f.rel (cfg.exclude_globs.getD [])
      || !shouldInclude f.rel (cfg.include_globs.getD [])) = true
  · simp [hf]
  · simp only [Bool.not_eq_true] at hf
    by_cases hi : indexRequested cfg = true
    · by_cases ho : cfg.index_only = true <;> simp [hf, hi, ho]
    · simp only [Bool.not_eq_true] at hi
      by_cases ho : cfg.index_only = true <;> simp [hf, hi, ho]

theorem runLoop_spec (cfg : PackConfig) :
    ∀ (fs : List WalkFile) (st : LoopState),
    fs.foldl (packFileStep cfg) st =
      { body := st.body ++ (if cfg.index_only then []
          else ((fs.filter (passesFilter cfg)).map (blockOf cfg)).flatten)
      , processed := st.processed ++ (fs.filter (passesFilter cfg)).map WalkFile.rel
      , skipped := st.skipped ++ (fs.filter (fun f => !passesFilter cfg f)).map WalkFile.rel
      , indexFiles := st.indexFiles ++ (if indexRequested cfg then
          (fs.filter (passesFilter cfg)).map (fun f => (f.rel, fileMetaOf f)) else []) } := by
  intro fs
  induction fs with
  | nil => intro st; cases st; simp
  | cons f rest ih =>
    intro st
    rw [List.foldl_cons, packFileStep_spec]
    by_cases hp : passesFilter cfg f = true
    · rw [if_pos hp, ih]
      simp only [List.filter_cons, hp, Bool.not_true, List.map_cons, List.flatten_cons]
      by_cases ho : cfg.index_only = true
      · by_cases hi : indexRequested cfg = true <;> simp [ho, hi]
      · simp only [Bool.not_eq_true] at ho
        by_cases hi : indexRequested cfg = true <;> simp [ho, hi]
    · simp only [Bool.not_eq_true] at hp
      rw [if_neg (by simp [hp]), ih]
      simp [List.filter_cons, hp]

theorem count_map_rel (l : List WalkFile) (p : String) :
    (l.map WalkFile.rel).count p = (l.filter (fun f => f.rel = p)).length := by
  induction l with
  | nil => simp
  | cons f rest ih =>
    simp only [List.map_cons, List.count_cons, List.filter_cons, ih]
    by_cases h : f.rel = p
    · simp [h]
    · have h' : (f.rel == p) = false := by simpa using h
      simp [h, h']

theorem filter_ne_filter_passes (cfg : PackConfig) (p : String)
    (hex : shouldExclude p (cfg.exclude_globs.getD []) = true) (fs : List WalkFile) :
    (fs.filter (fun f => f.rel ≠ p)).filter (passesFilter cfg)
      = fs.filter (passesFilter cfg) := by
  rw [List.filter_filter]
  apply List.filter_congr
  intro f _
  by_cases h : f.rel = p
  · have hp : passesFilter cfg f = false := by
      unfold passesFilter
      rw [h, hex]
      rfl
    simp [h, hp]
  · simp [h]

/-! ### C4: exclusion beats inclusion -/

/-- C4: a path matched by an exclude pattern is skipped even when it also
matches an include pattern: it never reaches the processed list, never
enters the index metadata, is recorded as skipped once per walked
occurrence, and the bundle body is exactly the body obtained without the
file. -/
theorem c4_exclude_always_beats_include (cfg : PackConfig) (fs : List WalkFile) (p : String)
    (hex : shouldExclude p (cfg.exclude_globs.getD []) = true)
    (_hin : shouldInclude p (cfg.include_globs.getD []) = true) :
    p ∉ (runLoop fs cfg).processed
    ∧ p ∉ ((runLoop fs cfg).indexFiles.map Prod.fst)
    ∧ (runLoop fs cfg).skipped.count p = (fs.filter (fun f => f.rel = p)).length
    ∧ (runLoop fs cfg).body = (runLoop (fs.filter (fun f => f.rel ≠ p)) cfg).body := by
  have hpass : ∀ f : WalkFile, f.rel = p → passesFilter cfg f = false := by
    intro f hf
    unfold passesFilter
    rw [hf, hex]
    rfl
  unfold runLoop
  rw [runLoop_spec, runLoop_spec]
  refine ⟨?_, ?_, ?_, ?_⟩
  · intro hmem
    simp only [List.nil_append, List.mem_map, List.mem_filter] at hmem
    obtain ⟨f, ⟨-, hf⟩, hrel⟩ := hmem
    rw [hpass f hrel] at hf
    exact absurd hf (by simp)
  · intro hmem
    by_cases hi : indexRequested cfg = true
    · simp only [hi, if_true, List.nil_append, List.map_map, List.mem_map,
        List.mem_filter, Function.comp] at hmem
      obtain ⟨f, ⟨-, hf⟩, hrel⟩ := hmem
      have hrel' : f.rel = p := by simpa using hrel
      rw [hpass f hrel'] at hf
      exact absurd hf (by simp)
    · simp only [Bool.not_eq_true] at hi
      simp [hi] at hmem
  · simp only [List.nil_append]
    rw [count_map_rel]
    congr 1
    induction fs with
    | nil => rfl
    | cons f rest ih =>
      by_cases h : f.rel = p
      · simp [List.filter_cons, h, hpass f h, ih]
      · simp only [List.filter_cons, h]
        by_cases hq : passesFilter cfg f = true <;> simp [hq, ih, h]
  · simp only [List.nil_append]
    rw [filter_ne_filter_passes cfg p hex fs]

/-- C4 witness: a concrete path matching both an include and an exclude
pattern is absent from the body, processed list and index. -/
theorem c4_witness :
    "node_modules/mod.js"
        ∉ (runLoop [⟨"a/keep.txt", "hello world", 11⟩, ⟨"node_modules/mod.js", "npm", 3⟩]
            ({ include_globs := some ["**/*.txt", "**/*.js"],
               exclude_globs := some (defaultExcludes ++ ["**/node_modules/**"]),
               index_include := some [], write_index := true } : PackConfig)).processed
    ∧ "node_modules/mod.js"
        ∉ ((runLoop [⟨"a/keep.txt", "hello world", 11⟩, ⟨"node_modules/mod.js", "npm", 3⟩]
            ({ include_globs := some ["**/*.txt", "**/*.js"],
               exclude_globs := some (defaultExcludes ++ ["**/node_modules/**"]),
               index_include := some [], write_index := true } : PackConfig)).indexFiles.map
            Prod.fst)
    ∧ (runLoop [⟨"a/keep.txt", "hello world", 11⟩, ⟨"node_modules/mod.js", "npm", 3⟩]
          ({ include_globs := some ["**/*.txt", "**/*.js"],
             exclude_globs := some (defaultExcludes ++ ["**/node_modules/**"]),
             index_include := some [], write_index := true } : PackConfig)).skipped.count
          "node_modules/mod.js"
        = (([⟨"a/keep.txt", "hello world", 11⟩, ⟨"node_modules/mod.js", "npm", 3⟩] :
              List WalkFile).filter
            (fun f => f.rel = "node_modules/mod.js")).length
    ∧ (runLoop [⟨"a/keep.txt", "hello world", 11⟩, ⟨"node_modules/mod.js", "npm", 3⟩]
          ({ include_globs := some ["**/*.txt", "**/*.js"],
             exclude_globs := some (defaultExcludes ++ ["**/node_modules/**"]),
             index_include := some [], write_index := true } : PackConfig)).body
        = (runLoop (([⟨"a/keep.txt", "hello world", 11⟩, ⟨"node_modules/mod.js", "npm", 3⟩] :
                List WalkFile).filter
              (fun f => f.rel ≠ "node_modules/mod.js"))
            ({ include_globs := some ["**/*.txt", "**/*.js"],
               exclude_globs := some (defaultExcludes ++ ["**/node_modules/**"]),
               index_include := some [], write_index := true } : PackConfig)).body :=
  c4_exclude_always_beats_include
    ({ include_globs := some ["**/*.txt", "**/*.js"],
       exclude_globs := some (defaultExcludes ++ ["**/node_modules/**"]),
       index_include := some [], write_index := true } : PackConfig)
    [⟨"a/keep.txt", "hello world", 11⟩, ⟨"node_modules/mod.js", "npm", 3⟩]
    "node_modules/mod.js" (by decide) (by decide)

/-! ### C8: the reported stats -/

/-- C8 counterexample: a run with no index requested processes one 5-byte
file yet reports `total_bytes = 0` (and hence ratio 0), not the total
content bytes of the processed files. -/
theorem c8_total_bytes_zero_without_index :
    (pack_directory id "/" [⟨"a.txt", "hello", 5⟩] ({} : PackConfig)).map (fun o => o.stats)
      = .ok ⟨63, 1, 0, 0⟩
    ∧ specTotalContentBytes [⟨"a.txt", "hello", 5⟩]
        ({ include_globs := some [], exclude_globs := some defaultExcludes,
           index_include := some [] } : PackConfig) = 5 :=
  ⟨by decide, by decide⟩

/-- C8 (amended): every packing run reports the processed count, the
skipped count and the final output size; `total_bytes` is the sum of the
sizes recorded in the index metadata, which equals the total
pre-compression content bytes of the processed files when an index is
requested and is `0` otherwise (making the reported ratio `0`).  (The
ratio itself is the float `round(bundle_size/total_bytes, 2)` when
`total_bytes > 0`; floating point is not modelled.) -/
theorem c8_stats_reported (gz : List Nat → List Nat) (cwd : String) (fs : List WalkFile)
    (cfg cfg' : PackConfig) (out : PackOutput)
    (hd : applyDefaults cfg = .ok cfg')
    (hr : pack_directory gz cwd fs cfg = .ok out) :
    out.stats.bundle_size = out.outBytes.length
    ∧ out.stats.files_processed = (fs.filter (passesFilter cfg')).length
    ∧ out.stats.files_skipped = (fs.filter (fun f => !passesFilter cfg' f)).length
    ∧ out.stats.total_bytes
        = (if indexRequested cfg' then specTotalContentBytes fs cfg' else 0) := by
  unfold pack_directory at hr
  rw [hd] at hr
  simp only [Except.ok.injEq] at hr
  subst hr
  unfold runLoop
  rw [runLoop_spec]
  simp only [List.nil_append]
  refine ⟨by trivial, by simp, by simp, ?_⟩
  by_cases hi : indexRequested cfg' = true
  · simp only [hi, if_true]
    unfold specTotalContentBytes
    rw [List.map_map]
    rfl
  · simp only [Bool.not_eq_true] at hi
    simp [hi]

/-- C8 witness: the amended theorem at a concrete indexed run. -/
theorem c8_witness :
    ((pack_directory id "/" [⟨"a.txt", "hello", 5⟩] { write_index := true }).toOption.getD
        ⟨[], none, ⟨0, 0, 0, 0⟩⟩).stats.bundle_size
      = ((pack_directory id "/" [⟨"a.txt", "hello", 5⟩] { write_index := true }).toOption.getD
        ⟨[], none, ⟨0, 0, 0, 0⟩⟩).outBytes.length
    ∧ ((pack_directory id "/" [⟨"a.txt", "hello", 5⟩] { write_index := true }).toOption.getD
        ⟨[], none, ⟨0, 0, 0, 0⟩⟩).stats.files_processed
      = (([⟨"a.txt", "hello", 5⟩] : List WalkFile).filter (passesFilter { write_index := true, include_globs := some [], exclude_globs := some defaultExcludes, index_include := some [] })).length
    ∧ ((pack_directory id "/" [⟨"a.txt", "hello", 5⟩] { write_index := true }).toOption.getD
        ⟨[], none, ⟨0, 0, 0, 0⟩⟩).stats.files_skipped
      = (([⟨"a.txt", "hello", 5⟩] : List WalkFile).filter (fun f => !passesFilter { write_index := true, include_globs := some [], exclude_globs := some defaultExcludes, index_include := some [] } f)).length
    ∧ ((pack_directory id "/" [⟨"a.txt", "hello", 5⟩] { write_index := true }).toOption.getD
        ⟨[], none, ⟨0, 0, 0, 0⟩⟩).stats.total_bytes
      = (if indexRequested { write_index := true, include_globs := some [], exclude_globs := some defaultExcludes, index_include := some [] } then specTotalContentBytes [⟨"a.txt", "hello", 5⟩] { write_index := true, include_globs := some [], exclude_globs := some defaultExcludes, index_include := some [] } else 0) :=
  c8_stats_reported id "/" [⟨"a.txt", "hello", 5⟩] { write_index := true }
    { write_index := true, include_globs := some [], exclude_globs := some defaultExcludes, index_include := some [] }
    ((pack_directory id "/" [⟨"a.txt", "hello", 5⟩] { write_index := true }).toOption.getD
        ⟨[], none, ⟨0, 0, 0, 0⟩⟩)
    (by decide) (by decide)


/-! ### C6: search scoring -/

theorem fileTypeBonus_nonneg (fn : List Char) : 0 ≤ fileTypeBonus fn := by
  unfold fileTypeBonus
  split_ifs <;> norm_num

theorem calculate_score_eq_specScoreMult (tokens : List String) (path : String) (m : Nat) :
    calculate_score tokens path m = specScoreMult tokens path m := by
  unfold calculate_score specScoreMult filenameMatchCount isNoisyPath
  by_cases hn : noisePatterns.any (fun np => containsSub (lowerStr path.data) np.data) = true
  · simp only [hn, if_true]
    congr 1
    ring
  · simp only [hn, if_false, Bool.false_eq_true]
    congr 1
    ring

theorem insertSorted_perm {α : Type} (le : α → α → Bool) (x : α) (l : List α) :
    (insertSorted le x l).Perm (x :: l) := by
  induction l with
  | nil => simp [insertSorted]
  | cons y rest ih =>
    unfold insertSorted
    by_cases h : le x y = true
    · rw [if_pos h]
    · rw [if_neg h]
      exact (ih.cons y).trans (List.Perm.swap x y rest)

theorem sortBy_perm {α : Type} (le : α → α → Bool) (l : List α) : (sortBy le l).Perm l := by
  induction l with
  | nil => simp [sortBy]
  | cons x rest ih =>
    unfold sortBy
    exact (insertSorted_perm le x (sortBy le rest)).trans (ih.cons x)

/-- C6 counterexample: the query `"foo foo"` tokenizes into two copies of
`foo`; the single line `foo` of `f.txt` matches both patterns, so the hit
scores `2·10 = 20`, while the spec formula with *distinct* tokens gives
`10`. -/
theorem c6_score_not_by_distinct_tokens :
    dirSearch "/r" [("/r/f.txt", "foo")] ["f.txt"] "foo foo" 50 false
      = [⟨"f.txt", 1, "foo", 20⟩]
    ∧ specScoreDistinct (tokenizeQuery "foo foo") "f.txt" "foo".data false = 10
    ∧ (20 : Int) ≠ 10 :=
  ⟨by decide, by decide, by decide⟩

/-- C6 (amended): every hit produced by the search line loop is scored by
the spec formula with the line term counting tokens *with multiplicity*
(10 per matching pattern, one pattern per token occurrence); every hit of
`dirSearch` comes from that loop; and for hits with equal line-match
count, equal file-type bonus and no noise penalty, a filename containing
a query token scores strictly higher than one containing none. -/
theorem c6_score_formula_and_filename_ranking :
    (∀ (rootDir query : String) (fs : List (String × String)) (files : List String)
        (maxResults : Nat) (cs : Bool) (hit : FileHit),
      hit ∈ dirSearch rootDir fs files query maxResults cs →
      ∃ rel ∈ files, ∃ content, fsLookup fs (normpath (osJoin rootDir rel)) = some content
        ∧ hit ∈ searchLinesAux (tokenizeQuery query) cs rel 1 (splitLinesStr content.data))
    ∧ (∀ (tokens : List String) (cs : Bool) (rel : String) (i : Nat)
        (lines : List (List Char)) (hit : FileHit),
      hit ∈ searchLinesAux tokens cs rel i lines →
      ∃ line ∈ lines,
        0 < (tokens.filter (fun t => patternSearch t line cs)).length
        ∧ hit.score = specScoreMult tokens rel
            ((tokens.filter (fun t => patternSearch t line cs)).length))
    ∧ (∀ (tokens : List String) (p1 p2 : String) (m : Nat),
      0 < m →
      isNoisyPath p1 = false → isNoisyPath p2 = false →
      fileTypeBonus (basenameChars (lowerStr p1.data))
        = fileTypeBonus (basenameChars (lowerStr p2.data)) →
      0 < filenameMatchCount tokens p1 → filenameMatchCount tokens p2 = 0 →
      calculate_score tokens p2 m < calculate_score tokens p1 m) := by
  refine ⟨?_, ?_, ?_⟩
  · intro rootDir query fs files maxResults cs hit hmem
    unfold dirSearch at hmem
    have h1 := List.mem_of_mem_take hmem
    have h2 := (sortBy_perm (fun a b : FileHit => decide (b.score ≤ a.score)) _).mem_iff.mp h1
    rw [List.mem_flatMap] at h2
    obtain ⟨rel, hrel, hin⟩ := h2
    refine ⟨rel, hrel, ?_⟩
    cases hl : fsLookup fs (normpath (osJoin rootDir rel)) with
    | none => rw [hl] at hin; simp at hin
    | some content => rw [hl] at hin; exact ⟨content, rfl, hin⟩
  · intro tokens cs rel i lines hit hmem
    induction lines generalizing i with
    | nil => simp [searchLinesAux] at hmem
    | cons line rest ih =>
      rw [searchLinesAux] at hmem
      by_cases hc : 0 < (tokens.filter (fun t => patternSearch t line cs)).length
      · rw [if_pos (by simpa using hc)] at hmem
        cases hmem with
        | head =>
          exact ⟨line, List.mem_cons_self line rest, hc,
            calculate_score_eq_specScoreMult tokens rel _⟩
        | tail _ h' =>
          obtain ⟨l, hl, ha, hb⟩ := ih (i + 1) h'
          exact ⟨l, List.mem_cons_of_mem line hl, ha, hb⟩
      · rw [if_neg (by simpa using hc)] at hmem
        obtain ⟨l, hl, ha, hb⟩ := ih (i + 1) hmem
        exact ⟨l, List.mem_cons_of_mem line hl, ha, hb⟩
  · intro tokens p1 p2 m hm hn1 hn2 hb hf1 hf2
    rw [calculate_score_eq_specScoreMult, calculate_score_eq_specScoreMult]
    unfold specScoreMult
    rw [hn1, hn2, hf2, hb]
    have hB := fileTypeBonus_nonneg (basenameChars (lowerStr p2.data))
    simp only [Bool.false_eq_true, if_false]
    omega

/-- C6 witness: the strict-ranking part at a concrete token and pair of
paths differing only in whether the filename contains the token. -/
theorem c6_witness :
    calculate_score ["foo"] "bar.xyz" 1 < calculate_score ["foo"] "foo.xyz" 1 :=
  c6_score_formula_and_filename_ranking.2.2 ["foo"] "foo.xyz" "bar.xyz" 1
    (by decide) (by decide) (by decide) (by decide) (by decide) (by decide)


/-! ### C5: the gzip-then-base64 envelope -/

theorem b64Val_b64Char : ∀ k < 64, b64Val (b64Char k) = k := by decide

theorem b64Char_ne_61 : ∀ k < 64, b64Char k ≠ 61 := by decide

/-- base64 decoding inverts encoding on byte streams. -/
theorem b64_roundtrip : ∀ (l : List Nat), (∀ b ∈ l, b < 256) → b64Decode (b64Encode l) = l
  | [], _ => rfl
  | [b1], h => by
    have hb : b1 < 256 := h b1 (by simp)
    show b64Decode [b64Char (b1 / 4), b64Char (b1 % 4 * 16), 61, 61] = [b1]
    unfold b64Decode
    rw [if_pos rfl, b64Val_b64Char _ (by omega), b64Val_b64Char _ (by omega)]
    have : b1 / 4 * 4 + b1 % 4 * 16 / 16 = b1 := by omega
    rw [this]
  | [b1, b2], h => by
    have hb1 : b1 < 256 := h b1 (by simp)
    have hb2 : b2 < 256 := h b2 (by simp)
    show b64Decode [b64Char (b1 / 4), b64Char (b1 % 4 * 16 + b2 / 16),
        b64Char (b2 % 16 * 4), 61] = [b1, b2]
    unfold b64Decode
    rw [if_neg (b64Char_ne_61 _ (by omega)), if_pos rfl,
      b64Val_b64Char _ (by omega), b64Val_b64Char _ (by omega), b64Val_b64Char _ (by omega)]
    have e1 : b1 / 4 * 4 + (b1 % 4 * 16 + b2 / 16) / 16 = b1 := by omega
    have e2 : (b1 % 4 * 16 + b2 / 16) % 16 * 16 + b2 % 16 * 4 / 4 = b2 := by omega
    rw [e1, e2]
  | b1 :: b2 :: b3 :: rest, h => by
    have hb1 : b1 < 256 := h b1 (by simp)
    have hb2 : b2 < 256 := h b2 (by simp)
    have hb3 : b3 < 256 := h b3 (by simp)
    have ih := b64_roundtrip rest (fun b hb => h b (by simp [hb]))
    show b64Decode (b64Char (b1 / 4) :: b64Char (b1 % 4 * 16 + b2 / 16)
        :: b64Char (b2 % 16 * 4 + b3 / 64) :: b64Char (b3 % 64) :: b64Encode rest)
      = b1 :: b2 :: b3 :: rest
    unfold b64Decode
    rw [if_neg (b64Char_ne_61 _ (by omega)), if_neg (b64Char_ne_61 _ (by omega)),
      b64Val_b64Char _ (by omega), b64Val_b64Char _ (by omega),
      b64Val_b64Char _ (by omega), b64Val_b64Char _ (by omega), ih]
    have e1 : b1 / 4 * 4 + (b1 % 4 * 16 + b2 / 16) / 16 = b1 := by omega
    have e2 : (b1 % 4 * 16 + b2 / 16) % 16 * 16 + (b2 % 16 * 4 + b3 / 64) / 4 = b2 := by omega
    have e3 : (b2 % 16 * 4 + b3 / 64) % 4 * 64 + b3 % 64 = b3 := by omega
    rw [e1, e2, e3]

/-- C5: when both envelope flags are on the stages apply in the fixed
order gzip-then-base64: base64-decoding the written output and then
gunzipping reproduces the unwrapped bundle text exactly.  `gz`/`gunz` are
the external gzip stage and its inverse; `hbytes` records that gzip
output is a byte stream. -/
theorem c5_envelope_gzip_then_base64 (gz gunz : List Nat → List Nat) (cwd : String)
    (fs : List WalkFile) (cfg cfg' : PackConfig) (out : PackOutput)
    (hd : applyDefaults cfg = .ok cfg')
    (hg : cfg.gzip_out = true) (hb : cfg.base64_out = true)
    (hbytes : ∀ b ∈ gz (packRawBytes cwd fs cfg'), b < 256)
    (hinv : gunz (gz (packRawBytes cwd fs cfg')) = packRawBytes cwd fs cfg')
    (hr : pack_directory gz cwd fs cfg = .ok out) :
    gunz (b64Decode out.outBytes) = packRawBytes cwd fs cfg' := by
  have hfl := applyDefaults_ok_fields cfg cfg' hd
  have hg' : cfg'.gzip_out = true := hfl.1.trans hg
  have hb' : cfg'.base64_out = true := hfl.2.1.trans hb
  unfold pack_directory at hr
  rw [hd] at hr
  simp only [Except.ok.injEq] at hr
  subst hr
  simp only [hg', hb', if_true]
  rw [b64_roundtrip _ hbytes, hinv]

/-- C5 witness: the theorem at a concrete one-file pack with `gz = id`. -/
theorem c5_witness :
    pack_directory id "/" [⟨"f.txt", "d", 1⟩]
        ({ gzip_out := true, base64_out := true } : PackConfig)
      = .ok { outBytes := b64Encode (id (packRawBytes "/" [⟨"f.txt", "d", 1⟩] { gzip_out := true, base64_out := true, include_globs := some [], exclude_globs := some defaultExcludes, index_include := some [] })), indexFileText := none, stats := ⟨(b64Encode (id (packRawBytes "/" [⟨"f.txt", "d", 1⟩] { gzip_out := true, base64_out := true, include_globs := some [], exclude_globs := some defaultExcludes, index_include := some [] }))).length, 1, 0, 0⟩ }
    ∧ id (b64Decode ({ outBytes := b64Encode (id (packRawBytes "/" [⟨"f.txt", "d", 1⟩] { gzip_out := true, base64_out := true, include_globs := some [], exclude_globs := some defaultExcludes, index_include := some [] })), indexFileText := none, stats := ⟨(b64Encode (id (packRawBytes "/" [⟨"f.txt", "d", 1⟩] { gzip_out := true, base64_out := true, include_globs := some [], exclude_globs := some defaultExcludes, index_include := some [] }))).length, 1, 0, 0⟩ } : PackOutput).outBytes)
      = packRawBytes "/" [⟨"f.txt", "d", 1⟩] { gzip_out := true, base64_out := true, include_globs := some [], exclude_globs := some defaultExcludes, index_include := some [] } :=
  ⟨by decide,
   c5_envelope_gzip_then_base64 id id "/" [⟨"f.txt", "d", 1⟩]
     ({ gzip_out := true, base64_out := true } : PackConfig)
     ({ gzip_out := true, base64_out := true, include_globs := some [], exclude_globs := some defaultExcludes, index_include := some [] } : PackConfig)
     _ (by decide) rfl rfl (by decide) rfl (by decide)⟩


/-! ### C1: round-trip through a plain bundle — infrastructure -/

theorem utf8Encode_append (a b : List Char) :
    utf8Encode (a ++ b) = utf8Encode a ++ utf8Encode b := by
  induction a with
  | nil => rfl
  | cons c t ih => simp [utf8Encode, ih]

theorem utf8Encode_ascii (l : List Char) (h : ∀ c ∈ l, c.toNat < 128) :
    utf8Encode l = l.map Char.toNat := by
  induction l with
  | nil => rfl
  | cons c t ih =>
    have hc : c.toNat < 128 := h c (by simp)
    simp only [utf8Encode, List.map_cons]
    rw [ih (fun d hd => h d (by simp [hd]))]
    unfold utf8EncodeChar
    rw [if_pos (by omega)]
    rfl

theorem utf8DecodeAux_ascii : ∀ (fuel : Nat) (l : List Nat), l.length ≤ fuel →
    (∀ b ∈ l, b < 128) → utf8DecodeAux fuel l = l.map Char.ofNat := by
  intro fuel
  induction fuel with
  | zero => intro l hl _; cases l with
    | nil => rfl
    | cons b t => simp at hl
  | succ n ih =>
    intro l hl hb
    cases l with
    | nil => rfl
    | cons b t =>
      have h1 : b < 128 := hb b (by simp)
      show utf8DecodeAux (n + 1) (b :: t) = Char.ofNat b :: t.map Char.ofNat
      unfold utf8DecodeAux
      rw [if_pos (by omega)]
      rw [ih t (by simp at hl; omega) (fun d hd => hb d (by simp [hd]))]

theorem utf8Decode_ascii (l : List Nat) (h : ∀ b ∈ l, b < 128) :
    utf8Decode l = l.map Char.ofNat :=
  utf8DecodeAux_ascii l.length l (Nat.le_refl _) h

theorem map_ofNat_map_toNat (l : List Char) : (l.map Char.toNat).map Char.ofNat = l := by
  rw [List.map_map]
  exact List.map_congr_left (fun c _ => Char.ofNat_toNat c) |>.trans (List.map_id l)

theorem utf8Decode_encode_ascii (l : List Char) (h : ∀ c ∈ l, c.toNat < 128) :
    utf8Decode (utf8Encode l) = l := by
  rw [utf8Encode_ascii l h, utf8Decode_ascii, map_ofNat_map_toNat]
  intro b hb
  rw [List.mem_map] at hb
  obtain ⟨c, hc, rfl⟩ := hb
  exact h c hc

theorem splitLinesAux_nil (acc : List Nat) :
    splitLinesAux acc [] = if acc.isEmpty then [] else [acc.reverse] := rfl

theorem splitLinesAux_cons (acc : List Nat) (b : Nat) (rest : List Nat) :
    splitLinesAux acc (b :: rest)
      = if b = 10 then (acc.reverse ++ [10]) :: splitLinesAux [] rest
        else splitLinesAux (b :: acc) rest := rfl

theorem splitLinesAux_append (a : List Nat) :
    a.getLast? = some 10 → ∀ (b acc : List Nat),
    splitLinesAux acc (a ++ b) = splitLinesAux acc a ++ splitLinesAux [] b := by
  induction a with
  | nil => intro h; simp at h
  | cons x t ih =>
    intro h b acc
    cases t with
    | nil =>
      have hx : x = 10 := by simpa using h
      subst hx
      rw [List.cons_append, List.nil_append, splitLinesAux_cons, splitLinesAux_cons,
        if_pos rfl, if_pos rfl]
      simp [splitLinesAux_nil]
    | cons y u =>
      have h' : (y :: u).getLast? = some 10 := by
        rwa [List.getLast?_cons_cons] at h
      rw [List.cons_append, splitLinesAux_cons, splitLinesAux_cons]
      by_cases hx : x = 10
      · rw [if_pos hx, if_pos hx, ih h' b []]
        simp
      · rw [if_neg hx, if_neg hx]
        exact ih h' b (x :: acc)

theorem splitLines_append (a b : List Nat) (h : a.getLast? = some 10) :
    splitLines (a ++ b) = splitLines a ++ splitLines b :=
  splitLinesAux_append a h b []

theorem splitLinesAux_single (x : List Nat) (h : ∀ b ∈ x, b ≠ 10) :
    ∀ acc, splitLinesAux acc (x ++ [10]) = [acc.reverse ++ x ++ [10]] := by
  induction x with
  | nil => intro acc; simp [splitLinesAux_cons, splitLinesAux_nil]
  | cons c t ih =>
    intro acc
    have hc : c ≠ 10 := h c (by simp)
    rw [List.cons_append, splitLinesAux_cons, if_neg hc,
      ih (fun b hb => h b (by simp [hb])) (c :: acc)]
    simp

theorem splitLines_single (x : List Nat) (h : ∀ b ∈ x, b ≠ 10) :
    splitLines (x ++ [10]) = [x ++ [10]] := by
  unfold splitLines
  rw [splitLinesAux_single x h []]
  simp

theorem splitLinesAux_length_sum : ∀ (l acc : List Nat),
    ((splitLinesAux acc l).map List.length).sum = acc.length + l.length := by
  intro l
  induction l with
  | nil =>
    intro acc
    rw [splitLinesAux_nil]
    by_cases h : acc.isEmpty
    · rw [if_pos h]
      rw [List.isEmpty_iff] at h
      subst h; simp
    · rw [if_neg h]; simp
  | cons b t ih =>
    intro acc
    rw [splitLinesAux_cons]
    by_cases hb : b = 10
    · rw [if_pos hb]
      simp only [List.map_cons, List.sum_cons]
      rw [ih []]
      simp
      omega
    · rw [if_neg hb, ih (b :: acc)]
      simp
      omega

theorem splitLines_length_sum (l : List Nat) :
    ((splitLines l).map List.length).sum = l.length := by
  unfold splitLines
  rw [splitLinesAux_length_sum l []]
  simp

theorem stripTrailingWs_append_nl (s : List Nat) :
    stripTrailingWs (s ++ [10]) = stripTrailingWs s := by
  unfold stripTrailingWs
  rw [List.reverse_append]
  rfl

theorem stripTrailingWs_no_ws (s : List Nat) (b : Nat) (r : List Nat)
    (h : s.reverse = b :: r) (hb : isPySpaceByte b = false) :
    stripTrailingWs s = s := by
  unfold stripTrailingWs
  rw [h, List.dropWhile_cons, hb]
  simp only [Bool.false_eq_true, if_false]
  rw [← h, List.reverse_reverse]

theorem parseMarker_eq (head line : List Nat) :
    parseMarker head line =
      (if head.isPrefixOf (stripTrailingWs line)
          ∧ (strBytes " ---").isSuffixOf (stripTrailingWs line)
          ∧ ((stripTrailingWs line).drop head.length).take
              ((stripTrailingWs line).length - head.length - 4) ≠ []
          ∧ (((stripTrailingWs line).drop head.length).take
              ((stripTrailingWs line).length - head.length - 4)).all (· ≠ 10) then
        some (((stripTrailingWs line).drop head.length).take
          ((stripTrailingWs line).length - head.length - 4))
      else none) := rfl

/-- A full marker line strips to everything before its newline. -/
theorem stripTrailingWs_marker (head pb : List Nat) :
    stripTrailingWs (head ++ pb ++ strBytes " ---" ++ [10]) = head ++ pb ++ strBytes " ---" := by
  rw [stripTrailingWs_append_nl]
  exact stripTrailingWs_no_ws _ 45 ([45, 45, 32] ++ (head ++ pb).reverse)
    (by rw [List.reverse_append]; rfl) (by decide)

theorem parseMarker_roundtrip (head pb : List Nat)
    (hne : pb ≠ []) (hnl : ∀ b ∈ pb, b ≠ 10) :
    parseMarker head (head ++ pb ++ strBytes " ---" ++ [10]) = some pb := by
  rw [parseMarker_eq, stripTrailingWs_marker]
  have hdrop : (head ++ pb ++ strBytes " ---").drop head.length = pb ++ strBytes " ---" := by
    rw [List.append_assoc, List.drop_left]
  have h4 : (strBytes " ---").length = 4 := by decide
  have hlen : (head ++ pb ++ strBytes " ---").length - head.length - 4 = pb.length := by
    simp only [List.length_append, h4]
    omega
  rw [hdrop, hlen, List.take_left]
  rw [if_pos ?_]
  refine ⟨?_, ?_, hne, ?_⟩
  · exact List.isPrefixOf_iff_prefix.mpr (by rw [List.append_assoc]; exact List.prefix_append _ _)
  · exact List.isSuffixOf_iff_suffix.mpr (List.suffix_append _ _)
  · simp only [List.all_eq_true, decide_eq_true_eq]
    exact hnl

theorem isPrefixOf_false_of_ne (a b : List Nat) (i : Nat) (ha : i < a.length) (hb : i < b.length)
    (hne : a.get ⟨i, ha⟩ ≠ b.get ⟨i, hb⟩) : a.isPrefixOf b = false := by
  rw [Bool.eq_false_iff]
  intro h
  have hp := List.isPrefixOf_iff_prefix.mp h
  apply hne
  have := hp.getElem ha
  simpa using this

theorem parseMarker_none_of_not_prefix (head line : List Nat)
    (h : head.isPrefixOf (stripTrailingWs line) = false) : parseMarker head line = none := by
  rw [parseMarker_eq, if_neg]
  rintro ⟨h1, -⟩
  rw [h] at h1
  exact absurd h1 (by simp)

theorem parseStartLine_startLineBytes (pb : List Nat) (hne : pb ≠ [])
    (hnl : ∀ b ∈ pb, b ≠ 10) : parseStartLine (startLineBytes pb) = some pb :=
  parseMarker_roundtrip startMarkBytes pb hne hnl

theorem parseEndLine_endLineBytes (pb : List Nat) (hne : pb ≠ [])
    (hnl : ∀ b ∈ pb, b ≠ 10) : parseEndLine (endLineBytes pb) = some pb :=
  parseMarker_roundtrip endMarkBytes pb hne hnl

theorem parseEndLine_startLineBytes (pb : List Nat) :
    parseEndLine (startLineBytes pb) = none := by
  apply parseMarker_none_of_not_prefix
  unfold startLineBytes
  rw [stripTrailingWs_marker]
  have h19 : startMarkBytes.length = 19 := by decide
  have hb : (4 : Nat) < (startMarkBytes ++ pb ++ strBytes " ---").length := by
    simp only [List.length_append, h19]
    omega
  apply isPrefixOf_false_of_ne _ _ 4 (by decide) hb
  have hlt1 : (4 : Nat) < (startMarkBytes ++ pb).length := by
    simp only [List.length_append, h19]
    omega
  have hv : (startMarkBytes ++ pb ++ strBytes " ---").get ⟨4, hb⟩ = 83 := by
    rw [List.get_eq_getElem, List.getElem_append_left hlt1,
      List.getElem_append_left (by decide : (4 : Nat) < startMarkBytes.length)]
    decide
  rw [hv]
  decide

theorem parseStartLine_endLineBytes (pb : List Nat) :
    parseStartLine (endLineBytes pb) = none := by
  apply parseMarker_none_of_not_prefix
  unfold endLineBytes
  rw [stripTrailingWs_marker]
  have h17 : endMarkBytes.length = 17 := by decide
  have hb : (4 : Nat) < (endMarkBytes ++ pb ++ strBytes " ---").length := by
    simp only [List.length_append, h17]
    omega
  apply isPrefixOf_false_of_ne _ _ 4 (by decide) hb
  have hlt1 : (4 : Nat) < (endMarkBytes ++ pb).length := by
    simp only [List.length_append, h17]
    omega
  have hv : (endMarkBytes ++ pb ++ strBytes " ---").get ⟨4, hb⟩ = 69 := by
    rw [List.get_eq_getElem, List.getElem_append_left hlt1,
      List.getElem_append_left (by decide : (4 : Nat) < endMarkBytes.length)]
    decide
  rw [hv]
  decide

theorem parse_blank_line : parseStartLine [10] = none ∧ parseEndLine [10] = none := by decide

theorem utf8Encode_blockOf (cfg : PackConfig) (f : WalkFile) (hc : cfg.compress = false) :
    utf8Encode (blockOf cfg f) = blockBytes f := by
  unfold blockOf blockBytes startLineBytes endLineBytes
  rw [hc]
  simp only [Bool.false_eq_true, if_false]
  rw [utf8Encode_append, utf8Encode_append]
  have h1 : utf8Encode ("--- START OF FILE: " ++ f.rel ++ " ---\n").data
      = startMarkBytes ++ utf8Encode f.rel.data ++ (strBytes " ---" ++ [10]) := by
    rw [String.data_append, String.data_append, utf8Encode_append, utf8Encode_append,
      show utf8Encode "--- START OF FILE: ".data = startMarkBytes from by decide,
      show utf8Encode " ---\n".data = strBytes " ---" ++ [10] from by decide]
  have h2 : utf8Encode ("\n--- END OF FILE: " ++ f.rel ++ " ---\n\n").data
      = ([10] ++ endMarkBytes) ++ utf8Encode f.rel.data ++ (strBytes " ---" ++ [10] ++ [10]) := by
    rw [String.data_append, String.data_append, utf8Encode_append, utf8Encode_append,
      show utf8Encode "\n--- END OF FILE: ".data = [10] ++ endMarkBytes from by decide,
      show utf8Encode " ---\n\n".data = strBytes " ---" ++ [10] ++ [10] from by decide]
  rw [h1, h2]
  simp [List.append_assoc]

theorem utf8Encode_flatten_blocks (cfg : PackConfig) (hc : cfg.compress = false) :
    ∀ (fl : List WalkFile), utf8Encode ((fl.map (blockOf cfg)).flatten) = blocksBytes fl := by
  intro fl
  induction fl with
  | nil => rfl
  | cons f rest ih =>
    simp only [List.map_cons, List.flatten_cons, blocksBytes]
    rw [utf8Encode_append, utf8Encode_blockOf cfg f hc, ih]

theorem foldl_scanStep_neutral (lines : List (List Nat))
    (h : ∀ l ∈ lines, parseStartLine l = none ∧ parseEndLine l = none) :
    ∀ st : ScanState, lines.foldl scanStep st
      = { st with offset := st.offset + (lines.map List.length).sum } := by
  induction lines with
  | nil => intro st; cases st; simp
  | cons l rest ih =>
    intro st
    have hl := h l (by simp)
    have hstep : scanStep st l = { st with offset := st.offset + l.length } := by
      unfold scanStep
      rw [hl.1, hl.2]
    rw [List.foldl_cons, hstep, ih (fun m hm => h m (by simp [hm]))]
    simp [Nat.add_assoc]

theorem startLineBytes_getLast (pb : List Nat) : (startLineBytes pb).getLast? = some 10 := by
  unfold startLineBytes
  exact List.getLast?_concat _

theorem splitLines_startLine (pb : List Nat) (hnl : ∀ b ∈ pb, b ≠ 10) :
    splitLines (startLineBytes pb) = [startLineBytes pb] := by
  unfold startLineBytes
  apply splitLines_single
  intro b hb
  rcases List.mem_append.mp hb with hb1 | hb2
  · rcases List.mem_append.mp hb1 with hb3 | hb4
    · exact (by decide : ∀ b ∈ startMarkBytes, b ≠ 10) b hb3
    · exact hnl b hb4
  · exact (by decide : ∀ b ∈ strBytes " ---", b ≠ 10) b hb2

theorem splitLines_endLine (pb : List Nat) (hnl : ∀ b ∈ pb, b ≠ 10) :
    splitLines (endLineBytes pb) = [endLineBytes pb] := by
  unfold endLineBytes
  apply splitLines_single
  intro b hb
  rcases List.mem_append.mp hb with hb1 | hb2
  · rcases List.mem_append.mp hb1 with hb3 | hb4
    · exact (by decide : ∀ b ∈ endMarkBytes, b ≠ 10) b hb3
    · exact hnl b hb4
  · exact (by decide : ∀ b ∈ strBytes " ---", b ≠ 10) b hb2

theorem endLineBytes_getLast (pb : List Nat) : (endLineBytes pb).getLast? = some 10 := by
  unfold endLineBytes
  exact List.getLast?_concat _

/-- Scanning one complete plain block from any state leaves the scanner
closed, advances the offset by the block length, and stores the content
span (content plus the separator newline) under the decoded path. -/
theorem scan_block (f : WalkFile) (st : ScanState)
    (hne : utf8Encode f.rel.data ≠ [])
    (hnl : ∀ b ∈ utf8Encode f.rel.data, b ≠ 10)
    (hC : ∀ l ∈ splitLines (utf8Encode f.content.data ++ [10]),
        parseStartLine l = none ∧ parseEndLine l = none) :
    (splitLines (blockBytes f)).foldl scanStep st
      = { offset := st.offset + (blockBytes f).length
        , currentPath := none, startPos := none
        , index := setAssoc st.index (utf8Decode (utf8Encode f.rel.data))
            (st.offset + (startLineBytes (utf8Encode f.rel.data)).length,
             st.offset + (startLineBytes (utf8Encode f.rel.data)).length
               + ((utf8Encode f.content.data).length + 1)) } := by
  have e1 := splitLines_append (startLineBytes (utf8Encode f.rel.data))
    ((utf8Encode f.content.data ++ [10]) ++ (endLineBytes (utf8Encode f.rel.data) ++ [10]))
    (startLineBytes_getLast _)
  have e2 := splitLines_append (utf8Encode f.content.data ++ [10])
    (endLineBytes (utf8Encode f.rel.data) ++ [10]) (List.getLast?_concat _)
  have e3 := splitLines_append (endLineBytes (utf8Encode f.rel.data)) [10]
    (endLineBytes_getLast _)
  have e4 : splitLines ([10] : List Nat) = [[10]] := rfl
  have hsplit : splitLines (blockBytes f)
      = [startLineBytes (utf8Encode f.rel.data)]
        ++ (splitLines (utf8Encode f.content.data ++ [10])
        ++ ([endLineBytes (utf8Encode f.rel.data)] ++ [[10]])) := by
    unfold blockBytes
    rw [e1, e2, e3, e4, splitLines_startLine _ hnl, splitLines_endLine _ hnl]
  rw [hsplit, List.foldl_append, List.foldl_append, List.foldl_append]
  have hstep1 : List.foldl scanStep st [startLineBytes (utf8Encode f.rel.data)]
      = { offset := st.offset + (startLineBytes (utf8Encode f.rel.data)).length
        , currentPath := some (utf8Decode (utf8Encode f.rel.data))
        , startPos := some (st.offset + (startLineBytes (utf8Encode f.rel.data)).length)
        , index := st.index } := by
    simp only [List.foldl_cons, List.foldl_nil]
    unfold scanStep
    rw [parseStartLine_startLineBytes _ hne hnl]
  rw [hstep1, foldl_scanStep_neutral _ hC]
  have hsum : ((splitLines (utf8Encode f.content.data ++ [10])).map List.length).sum
      = (utf8Encode f.content.data).length + 1 := by
    rw [splitLines_length_sum]
    simp
  rw [hsum]
  dsimp only
  have hstep3 : List.foldl scanStep
      { offset := st.offset + (startLineBytes (utf8Encode f.rel.data)).length
          + ((utf8Encode f.content.data).length + 1)
      , currentPath := some (utf8Decode (utf8Encode f.rel.data))
      , startPos := some (st.offset + (startLineBytes (utf8Encode f.rel.data)).length)
      , index := st.index } [endLineBytes (utf8Encode f.rel.data)]
      = { offset := st.offset + (startLineBytes (utf8Encode f.rel.data)).length
            + ((utf8Encode f.content.data).length + 1)
            + (endLineBytes (utf8Encode f.rel.data)).length
        , currentPath := none, startPos := none
        , index := setAssoc st.index (utf8Decode (utf8Encode f.rel.data))
            (st.offset + (startLineBytes (utf8Encode f.rel.data)).length,
             st.offset + (startLineBytes (utf8Encode f.rel.data)).length
               + ((utf8Encode f.content.data).length + 1)) } := by
    simp only [List.foldl_cons, List.foldl_nil]
    unfold scanStep
    rw [parseStartLine_endLineBytes, parseEndLine_endLineBytes _ hne hnl]
  rw [hstep3]
  have hstep4 : ∀ st3 : ScanState, List.foldl scanStep st3 [[10]]
      = { st3 with offset := st3.offset + 1 } := by
    intro st3
    simp only [List.foldl_cons, List.foldl_nil]
    unfold scanStep
    rw [parse_blank_line.1, parse_blank_line.2]
    rfl
  rw [hstep4]
  dsimp only
  congr 1
  unfold blockBytes startLineBytes endLineBytes
  simp only [List.length_append, List.length_cons, List.length_nil]
  omega

theorem blockBytes_getLast (f : WalkFile) : (blockBytes f).getLast? = some 10 := by
  unfold blockBytes
  rw [show startLineBytes (utf8Encode f.rel.data)
        ++ ((utf8Encode f.content.data ++ [10]) ++ (endLineBytes (utf8Encode f.rel.data) ++ [10]))
      = (startLineBytes (utf8Encode f.rel.data)
        ++ ((utf8Encode f.content.data ++ [10]) ++ endLineBytes (utf8Encode f.rel.data))) ++ [10]
    from by simp [List.append_assoc]]
  exact List.getLast?_concat _

/-- Scanning a sequence of plain blocks from a closed state: offset
advances by the total length and the index accumulates every span. -/
theorem scan_blocks : ∀ (fl : List WalkFile) (st : ScanState),
    st.currentPath = none → st.startPos = none →
    (∀ f ∈ fl, (∀ c ∈ f.rel.data, c.toNat < 128) ∧ utf8Encode f.rel.data ≠ []
      ∧ (∀ b ∈ utf8Encode f.rel.data, b ≠ 10)
      ∧ (∀ l ∈ splitLines (utf8Encode f.content.data ++ [10]),
          parseStartLine l = none ∧ parseEndLine l = none)) →
    (splitLines (blocksBytes fl)).foldl scanStep st
      = { offset := st.offset + (blocksBytes fl).length
        , currentPath := none, startPos := none
        , index := idxAfter st.index st.offset fl } := by
  intro fl
  induction fl with
  | nil =>
    intro st h1 h2 _
    cases st
    simp_all [blocksBytes, idxAfter, splitLines, splitLinesAux]
  | cons f rest ih =>
    intro st h1 h2 hh
    obtain ⟨hasc, hne, hnl, hC⟩ := hh f (by simp)
    rw [show blocksBytes (f :: rest) = blockBytes f ++ blocksBytes rest from rfl,
      splitLines_append _ _ (blockBytes_getLast f), List.foldl_append,
      scan_block f st hne hnl hC,
      ih _ rfl rfl (fun g hg => hh g (by simp [hg]))]
    dsimp only
    rw [utf8Decode_encode_ascii _ hasc]
    rw [show idxAfter st.index st.offset (f :: rest)
        = idxAfter (setAssoc st.index f.rel.data
            (st.offset + (startLineBytes (utf8Encode f.rel.data)).length,
             st.offset + (startLineBytes (utf8Encode f.rel.data)).length
               + ((utf8Encode f.content.data).length + 1)))
          (st.offset + (blockBytes f).length) rest from rfl]
    congr 1
    simp only [List.length_append]
    omega

theorem lookupAssoc_setAssoc_self {beta : Type} (m : List (List Char × beta))
    (k : List Char) (v : beta) : lookupAssoc (setAssoc m k v) k = some v := by
  induction m with
  | nil => simp [setAssoc, lookupAssoc]
  | cons kv rest ih =>
    obtain ⟨k2, v2⟩ := kv
    unfold setAssoc
    by_cases h : k2 = k
    · rw [if_pos h]
      unfold lookupAssoc
      rw [if_pos h]
    · rw [if_neg h]
      unfold lookupAssoc
      rw [if_neg h]
      exact ih

theorem lookupAssoc_setAssoc_ne {beta : Type} (m : List (List Char × beta))
    (k : List Char) (v : beta) (q : List Char) (h : q ≠ k) :
    lookupAssoc (setAssoc m k v) q = lookupAssoc m q := by
  induction m with
  | nil =>
    unfold setAssoc lookupAssoc
    rw [if_neg (fun he => h he.symm)]
    rfl
  | cons kv rest ih =>
    obtain ⟨k2, v2⟩ := kv
    unfold setAssoc
    by_cases h2 : k2 = k
    · rw [if_pos h2]
      unfold lookupAssoc
      rw [if_neg (by rw [h2]; exact fun he => h he.symm),
        if_neg (by rw [h2]; exact fun he => h he.symm)]
    · rw [if_neg h2]
      unfold lookupAssoc
      by_cases h3 : k2 = q
      · rw [if_pos h3, if_pos h3]
      · rw [if_neg h3, if_neg h3]
        exact ih

theorem lookup_idxAfter_notmem : ∀ (fl : List WalkFile)
    (idx : List (List Char × (Nat × Nat))) (off : Nat) (k : List Char),
    (∀ f ∈ fl, f.rel.data ≠ k) →
    lookupAssoc (idxAfter idx off fl) k = lookupAssoc idx k := by
  intro fl
  induction fl with
  | nil => intro idx off k _; rfl
  | cons g rest ih =>
    intro idx off k h
    rw [show idxAfter idx off (g :: rest)
        = idxAfter (setAssoc idx g.rel.data
            (off + (startLineBytes (utf8Encode g.rel.data)).length,
             off + (startLineBytes (utf8Encode g.rel.data)).length
               + ((utf8Encode g.content.data).length + 1)))
          (off + (blockBytes g).length) rest from rfl]
    rw [ih _ _ k (fun f hf => h f (by simp [hf]))]
    exact lookupAssoc_setAssoc_ne _ _ _ _ (fun he => h g (by simp) he.symm)

/-- Looking a processed file up in the accumulated index yields its span,
and slicing the block stream at that span yields the content bytes of the file
plus the separator newline. -/
theorem extract_block : ∀ (fl : List WalkFile) (off : Nat)
    (idx : List (List Char × (Nat × Nat))) (f : WalkFile),
    f ∈ fl → ((fl.map WalkFile.rel).Nodup) →
    ∃ s e, lookupAssoc (idxAfter idx off fl) f.rel.data = some (s, e)
      ∧ ((blocksBytes fl).drop (s - off)).take (e - s)
          = utf8Encode f.content.data ++ [10]
      ∧ off ≤ s := by
  intro fl
  induction fl with
  | nil => intro off idx f h; simp at h
  | cons g rest ih =>
    intro off idx f hmem hnodup
    rw [List.map_cons, List.nodup_cons] at hnodup
    obtain ⟨hg, hrest⟩ := hnodup
    rw [show idxAfter idx off (g :: rest)
        = idxAfter (setAssoc idx g.rel.data
            (off + (startLineBytes (utf8Encode g.rel.data)).length,
             off + (startLineBytes (utf8Encode g.rel.data)).length
               + ((utf8Encode g.content.data).length + 1)))
          (off + (blockBytes g).length) rest from rfl]
    rcases List.mem_cons.mp hmem with heq | hmem2
    · subst heq
      refine ⟨off + (startLineBytes (utf8Encode f.rel.data)).length,
        off + (startLineBytes (utf8Encode f.rel.data)).length
          + ((utf8Encode f.content.data).length + 1), ?_, ?_, by omega⟩
      · rw [lookup_idxAfter_notmem rest _ _ _ ?_, lookupAssoc_setAssoc_self]
        intro h hh hdata
        exact hg (by rw [← String.ext hdata]; exact List.mem_map_of_mem WalkFile.rel hh)
      · have hdrop : off + (startLineBytes (utf8Encode f.rel.data)).length - off
            = (startLineBytes (utf8Encode f.rel.data)).length := by omega
        have htake : off + (startLineBytes (utf8Encode f.rel.data)).length
              + ((utf8Encode f.content.data).length + 1)
              - (off + (startLineBytes (utf8Encode f.rel.data)).length)
            = (utf8Encode f.content.data ++ [10]).length := by
          simp only [List.length_append, List.length_cons, List.length_nil]
          omega
        rw [hdrop, htake]
        rw [show blocksBytes (f :: rest) = blockBytes f ++ blocksBytes rest from rfl]
        unfold blockBytes
        rw [List.append_assoc, List.drop_left]
        rw [show (utf8Encode f.content.data ++ [10])
              ++ (endLineBytes (utf8Encode f.rel.data) ++ [10]) ++ blocksBytes rest
            = (utf8Encode f.content.data ++ [10])
              ++ ((endLineBytes (utf8Encode f.rel.data) ++ [10]) ++ blocksBytes rest)
          from by simp [List.append_assoc]]
        exact List.take_left _ _
    · obtain ⟨s, e, hl, hsl, hle⟩ := ih (off + (blockBytes g).length) _ f hmem2 hrest
      refine ⟨s, e, hl, ?_, by omega⟩
      rw [show blocksBytes (g :: rest) = blockBytes g ++ blocksBytes rest from rfl]
      rw [show s - off = (blockBytes g).length + (s - (off + (blockBytes g).length)) from by omega]
      rw [List.drop_append]
      exact hsl

theorem packDataStr_plain (cwd : String) (fs : List WalkFile) (cfg : PackConfig)
    (hw : cfg.write_index = false) (ho : cfg.index_only = false)
    (hout : cfg.index_output = none) :
    packDataStr cwd fs cfg = ((fs.filter (passesFilter cfg)).map (blockOf cfg)).flatten := by
  have hir : indexRequested cfg = false := by
    unfold indexRequested
    rw [hw, ho, hout]
    rfl
  unfold packDataStr
  rw [hir, ho]
  simp only [Bool.false_eq_true, if_false, ne_eq, not_true_eq_false, false_and]
  unfold runLoop
  rw [runLoop_spec]
  simp [ho]

/-- C1 counterexample: packing the single file `a.txt` with content
`hello` (no transform, no index, no envelope) and reading it back yields
`hello\n` — one extra byte — not `hello`. -/
theorem c1_roundtrip_adds_newline :
    bundleGetFile
        (packRawBytes "/" [⟨"a.txt", "hello", 5⟩]
          ({ include_globs := some [], exclude_globs := some defaultExcludes,
             index_include := some [] } : PackConfig))
        (bundleSourceOf (packRawBytes "/" [⟨"a.txt", "hello", 5⟩]
          ({ include_globs := some [], exclude_globs := some defaultExcludes,
             index_include := some [] } : PackConfig))) "a.txt" none none
      = .ok "hello\n".data
    ∧ "hello\n".data ≠ "hello".data :=
  ⟨by decide, by decide⟩

/-- C1 (amended): for every plain bundle (no content transform, no index
prelude, pre-envelope bytes) and every processed file, `get_file` on the
path of a file returns the content of that file followed by exactly one extra
newline — the separator the writer emits before the END marker, which
the recorded span includes.  Stated for ASCII paths and contents whose
content lines do not themselves parse as marker lines and with pairwise
distinct processed paths. -/
theorem c1_get_file_returns_content_plus_newline
    (cwd : String) (fs : List WalkFile) (cfg : PackConfig) (f : WalkFile)
    (hc : cfg.compress = false) (hw : cfg.write_index = false)
    (ho : cfg.index_only = false) (hout : cfg.index_output = none)
    (hmem : f ∈ fs) (hpass : passesFilter cfg f = true)
    (hhyg : ∀ g ∈ fs.filter (passesFilter cfg),
      g.rel ≠ "" ∧ (∀ c ∈ g.rel.data, c.toNat < 128) ∧ (∀ c ∈ g.rel.data, c ≠ '\n')
        ∧ (∀ l ∈ splitLines (utf8Encode g.content.data ++ [10]),
            parseStartLine l = none ∧ parseEndLine l = none))
    (hnodup : ((fs.filter (passesFilter cfg)).map WalkFile.rel).Nodup)
    (hascii : ∀ c ∈ f.content.data, c.toNat < 128) :
    bundleGetFile (packRawBytes cwd fs cfg) (bundleSourceOf (packRawBytes cwd fs cfg))
        f.rel none none
      = .ok (f.content.data ++ ['\n']) := by
  have hfP : f ∈ fs.filter (passesFilter cfg) := List.mem_filter.mpr ⟨hmem, hpass⟩
  have hraw : packRawBytes cwd fs cfg = blocksBytes (fs.filter (passesFilter cfg)) := by
    unfold packRawBytes
    rw [packDataStr_plain cwd fs cfg hw ho hout, utf8Encode_flatten_blocks cfg hc]
  have hhyp : ∀ g ∈ fs.filter (passesFilter cfg),
      (∀ c ∈ g.rel.data, c.toNat < 128) ∧ utf8Encode g.rel.data ≠ []
      ∧ (∀ b ∈ utf8Encode g.rel.data, b ≠ 10)
      ∧ (∀ l ∈ splitLines (utf8Encode g.content.data ++ [10]),
          parseStartLine l = none ∧ parseEndLine l = none) := by
    intro g hgmem
    obtain ⟨hne, hasc, hnl, hCl⟩ := hhyg g hgmem
    refine ⟨hasc, ?_, ?_, hCl⟩
    · rw [utf8Encode_ascii _ hasc]
      intro hempty
      apply hne
      apply String.ext
      simpa using hempty
    · intro b hb
      rw [utf8Encode_ascii _ hasc] at hb
      rw [List.mem_map] at hb
      obtain ⟨c, hc2, rfl⟩ := hb
      intro h10
      apply hnl c hc2
      have h11 := congrArg Char.ofNat h10
      rw [Char.ofNat_toNat] at h11
      exact h11
  have hidx : buildIndex (blocksBytes (fs.filter (passesFilter cfg)))
      = idxAfter [] 0 (fs.filter (passesFilter cfg)) := by
    unfold buildIndex
    rw [scan_blocks _ {} rfl rfl hhyp]
  obtain ⟨s, e, hl, hslice, -⟩ :=
    extract_block (fs.filter (passesFilter cfg)) 0 [] f hfP hnodup
  rw [Nat.sub_zero] at hslice
  have hsrc : (bundleSourceOf (blocksBytes (fs.filter (passesFilter cfg)))).index
      = idxAfter [] 0 (fs.filter (passesFilter cfg)) := by
    unfold bundleSourceOf
    exact hidx
  rw [hraw]
  unfold bundleGetFile
  rw [hsrc, hl]
  dsimp only
  rw [hslice]
  have hdec : utf8Decode (utf8Encode f.content.data ++ [10]) = f.content.data ++ ['\n'] := by
    rw [utf8Encode_ascii _ hascii, utf8Decode_ascii, List.map_append, map_ofNat_map_toNat]
    · rfl
    · intro b hb
      rcases List.mem_append.mp hb with hb1 | hb2
      · rw [List.mem_map] at hb1
        obtain ⟨c, hc2, rfl⟩ := hb1
        exact hascii c hc2
      · simp at hb2
        omega
  rw [hdec]
  simp

/-- C1 witness: the amended theorem at the concrete one-file pack of the
counterexample. -/
theorem c1_witness :
    bundleGetFile
        (packRawBytes "/" [⟨"a.txt", "hello", 5⟩]
          ({ include_globs := some [], exclude_globs := some defaultExcludes,
             index_include := some [] } : PackConfig))
        (bundleSourceOf (packRawBytes "/" [⟨"a.txt", "hello", 5⟩]
          ({ include_globs := some [], exclude_globs := some defaultExcludes,
             index_include := some [] } : PackConfig))) "a.txt" none none
      = .ok ("hello".data ++ ['\n']) :=
  c1_get_file_returns_content_plus_newline "/" [⟨"a.txt", "hello", 5⟩]
    ({ include_globs := some [], exclude_globs := some defaultExcludes,
       index_include := some [] } : PackConfig) ⟨"a.txt", "hello", 5⟩
    rfl rfl rfl rfl (by decide) (by decide) (by decide) (by decide) (by decide)

end Corpus

